import Mathlib

/-!
# Dashboard (`script.js`): storage-backed lists, calendar adapter, chat, weather

A shallow embedding of `src/script.js`.  The browser pieces the script talks to
are modelled as plain data:

* JavaScript values that can come out of `JSON.parse` are the type `JVal`
  (plus `undefined`, which property reads and array holes produce);
* `JSON.parse` is `jsonParse`, a recursive-descent parser for the JSON grammar
  (ECMA-404) that raises `JsError.jsonError` (the `SyntaxError` of the
  platform) on text outside the grammar; `JSON.stringify` is `jsonStringify`;
* `localStorage` is a map from keys to stored strings;
* the DOM is reduced to the fields of the elements the script reads or writes.

Strings are sequences of Unicode scalar values (`Char`).  A JavaScript string
can also hold an unpaired surrogate code unit; such strings have no image here.
The script is read as a classic (non-strict) script: it carries no
`use strict` directive.
-/

namespace Dashboard

/-! ## JavaScript values -/

/-- Exceptions the script can raise: `jsonError` is the `SyntaxError` thrown by
`JSON.parse`, `typeError` the `TypeError` thrown when a property is read from
`undefined` or `null`, or when a missing method is called. -/
inductive JsError where
  | jsonError
  | typeError
  deriving DecidableEq, Repr

/-- The values `JSON.parse` can return, and `undefined`.  A number is kept as
the literal text it was read from (the script never computes with a stored
number); object members are kept in JavaScript property order. -/
inductive JVal where
  | undefined
  | null
  | bool (b : Bool)
  | num (lit : String)
  | str (s : String)
  | arr (xs : List JVal)
  | obj (kvs : List (String × JVal))
  deriving Repr, Inhabited

/-- Value of a run of decimal digits. -/
def digitsVal (ds : List Char) : Nat :=
  ds.foldl (fun a c => 10 * a + (c.toNat - 48)) 0

/-- Whether a JSON number literal denotes a Number that is `0` (or `-0`): the
literal `m × 10^e` rounds to zero (round to nearest, ties to even) exactly when
`m × 10^e ≤ 2^-1075`, half the least positive double. -/
def numLitIsZero (lit : List Char) : Bool :=
  let body := if lit.head? = some '-' then lit.drop 1 else lit
  let mant := body.takeWhile (fun c => c ≠ 'e' ∧ c ≠ 'E')
  let ex := (body.dropWhile (fun c => c ≠ 'e' ∧ c ≠ 'E')).drop 1
  let intDs := mant.takeWhile Char.isDigit
  let fracDs := (mant.dropWhile Char.isDigit).drop 1
  let m := digitsVal (intDs ++ fracDs)
  let eAbs : Int := digitsVal (ex.filter Char.isDigit)
  let e : Int := (if ex.head? = some '-' then -eAbs else eAbs) - fracDs.length
  m = 0 || (e < 0 && m * 2 ^ 1075 ≤ 10 ^ e.natAbs)

/-- The abstract operation `ToBoolean`: `undefined`, `null`, `false`, zero and
the empty string are falsy, every object and array is truthy. -/
def JVal.truthy : JVal → Bool
  | .undefined => false
  | .null => false
  | .bool b => b
  | .num lit => !numLitIsZero lit.toList
  | .str s => s ≠ ""
  | .arr _ => true
  | .obj _ => true

/-- The expression `a || b`. -/
def JVal.or (a b : JVal) : JVal := if a.truthy then a else b

/-- Whether a property key is an array index: the canonical decimal form of an
integer between `0` and `2^32 - 2`. -/
def arrayIndex? (k : String) : Option Nat :=
  let ds := k.toList
  if ds = [] ∨ ¬ ds.all Char.isDigit then none
  else if ds.head? = some '0' ∧ ds.length ≠ 1 then none
  else if digitsVal ds ≤ 4294967294 then some (digitsVal ds) else none

/-- Insert a fresh array-index key: JavaScript lists array-index keys first,
in ascending order, before every other key. -/
def insertIndexKey (i : Nat) (k : String) (v : JVal) :
    List (String × JVal) → List (String × JVal)
  | [] => [(k, v)]
  | (k1, v1) :: rest =>
    match arrayIndex? k1 with
    | some j => if j < i then (k1, v1) :: insertIndexKey i k v rest else (k, v) :: (k1, v1) :: rest
    | none => (k, v) :: (k1, v1) :: rest

/-- Define or overwrite an own property (`CreateDataProperty` / assignment on an
ordinary object): an existing key keeps its position, a new key goes after the
existing keys (an array-index key among the array-index keys). -/
def setProp (kvs : List (String × JVal)) (k : String) (v : JVal) : List (String × JVal) :=
  if kvs.any (fun p => p.1 = k) then kvs.map (fun p => if p.1 = k then (k, v) else p)
  else match arrayIndex? k with
    | some i => insertIndexKey i k v kvs
    | none => kvs ++ [(k, v)]

/-- Own property lookup on a member list. -/
def lookupProp (kvs : List (String × JVal)) (k : String) : JVal :=
  match kvs.find? (fun p => p.1 = k) with
  | some p => p.2
  | none => .undefined

/-- The property read `x.name` for the names the script reads (`title`,
`start`, `end`, `text`, `completed`): none of them is defined on a built-in
prototype, so only an object can have one; reading from `undefined` or `null`
throws. -/
def JVal.getProp (x : JVal) (name : String) : Except JsError JVal :=
  match x with
  | .undefined => .error .typeError
  | .null => .error .typeError
  | .obj kvs => .ok (lookupProp kvs name)
  | _ => .ok .undefined

/-! ## JSON.stringify -/

/-- Lower-case hexadecimal digit. -/
def hexDigit (n : Nat) : Char :=
  if n < 10 then Char.ofNat (48 + n) else Char.ofNat (87 + n)

/-- The escape `QuoteJSONString` emits for one character. -/
def quoteChar (c : Char) : List Char :=
  if c = '"' then ['\\', '"']
  else if c = '\\' then ['\\', '\\']
  else if c = '\x08' then ['\\', 'b']
  else if c = '\x0c' then ['\\', 'f']
  else if c = '\n' then ['\\', 'n']
  else if c = '\r' then ['\\', 'r']
  else if c = '\t' then ['\\', 't']
  else if c.toNat < 32 then ['\\', 'u', '0', '0', hexDigit (c.toNat / 16), hexDigit (c.toNat % 16)]
  else [c]

/-- Escaped body of a string, without the surrounding quotes. -/
def quoteBody : List Char → List Char
  | [] => []
  | c :: cs => quoteChar c ++ quoteBody cs

/-- The operation `QuoteJSONString`. -/
def quoteJSONString (s : String) : List Char :=
  '"' :: (quoteBody s.toList ++ ['"'])

mutual
/-- Serialisation of a value in array position (`undefined` prints as `null`).
Elements and members are emitted with a leading comma that the enclosing
bracket drops.  A number is printed as the literal it was read from, which is
what JavaScript prints when the literal is the shortest form of its double. -/
def serialize : JVal → List Char
  | .undefined => ['n', 'u', 'l', 'l']
  | .null => ['n', 'u', 'l', 'l']
  | .bool true => ['t', 'r', 'u', 'e']
  | .bool false => ['f', 'a', 'l', 's', 'e']
  | .num lit => lit.toList
  | .str s => quoteJSONString s
  | .arr xs => '[' :: ((serializeElems xs).drop 1 ++ [']'])
  | .obj kvs => '\x7b' :: ((serializeMembers kvs).drop 1 ++ ['\x7d'])
/-- Array elements, each preceded by a comma. -/
def serializeElems : List JVal → List Char
  | [] => []
  | x :: xs => ',' :: (serialize x ++ serializeElems xs)
/-- Object members, each preceded by a comma; a member whose value is
`undefined` is left out. -/
def serializeMembers : List (String × JVal) → List Char
  | [] => []
  | (_, .undefined) :: kvs => serializeMembers kvs
  | (k, v) :: kvs => ',' :: (quoteJSONString k ++ (':' :: (serialize v ++ serializeMembers kvs)))
end

/-- The call `JSON.stringify(v)` as `localStorage.setItem` stores it.  The
script only ever passes the array it has just read, so the top-level value is
never `undefined`. -/
def jsonStringify (v : JVal) : String := String.mk (serialize v)

/-! ## JSON.parse -/

/-- Outcome of a parsing function: a value and the unread input, a syntax
error, or exhausted recursion fuel. -/
inductive PR (α : Type) where
  | ok (a : α) (rest : List Char)
  | bad
  | fuel
  deriving Repr

/-- JSON white space. -/
def isJsonWs (c : Char) : Bool := c = ' ' || c = '\t' || c = '\n' || c = '\r'

/-- Drop leading JSON white space. -/
def skipWs : List Char → List Char
  | [] => []
  | c :: cs => if isJsonWs c then skipWs cs else c :: cs

/-- Drop the given literal from the front of the input. -/
def dropLit : List Char → List Char → Option (List Char)
  | [], cs => some cs
  | _ :: _, [] => none
  | l :: ls, c :: cs => if l = c then dropLit ls cs else none

/-- Value of a hexadecimal digit. -/
def hexVal (c : Char) : Option Nat :=
  if '0' ≤ c ∧ c ≤ '9' then some (c.toNat - 48)
  else if 'a' ≤ c ∧ c ≤ 'f' then some (c.toNat - 87)
  else if 'A' ≤ c ∧ c ≤ 'F' then some (c.toNat - 55)
  else none

/-- An element of a string body as read: a character, or a surrogate code unit
written as a `\u` escape. -/
inductive StrItem where
  | chr (c : Char)
  | surr (u : Nat)
  deriving Repr

/-- The item a `\u` escape denotes. -/
def unitItem (u : Nat) : StrItem :=
  if 55296 ≤ u ∧ u < 57344 then .surr u else .chr (Char.ofNat u)

/-- The character of a single-character escape. -/
def unescape (e : Char) : Option Char :=
  if e = '"' then some '"'
  else if e = '\\' then some '\\'
  else if e = '/' then some '/'
  else if e = 'b' then some '\x08'
  else if e = 'f' then some '\x0c'
  else if e = 'n' then some '\n'
  else if e = 'r' then some '\r'
  else if e = 't' then some '\t'
  else none

/-- Where the string reader stands: between characters, right after a
backslash, or inside a `\u` escape with `k` digits read and their value. -/
inductive StrMode where
  | plain
  | esc
  | hex (k : Nat) (acc : Nat)

/-- Read a string body up to and including the closing quote (the opening
quote has been consumed), one character at a time.  A raw control character, an
unknown escape or a short `\u` escape is a syntax error. -/
def parseStringItems : StrMode → List Char → Option (List StrItem × List Char)
  | _, [] => none
  | .plain, c :: cs =>
    if c = '"' then some ([], cs)
    else if c = '\\' then parseStringItems .esc cs
    else if c.toNat < 32 then none
    else
      match parseStringItems .plain cs with
      | some (its, rest) => some (.chr c :: its, rest)
      | none => none
  | .esc, e :: cs =>
    if e = 'u' then parseStringItems (.hex 0 0) cs
    else
      match unescape e with
      | some ch =>
        match parseStringItems .plain cs with
        | some (its, rest) => some (.chr ch :: its, rest)
        | none => none
      | none => none
  | .hex k acc, h :: cs =>
    match hexVal h with
    | some d =>
      if k = 3 then
        match parseStringItems .plain cs with
        | some (its, rest) => some (unitItem (acc * 16 + d) :: its, rest)
        | none => none
      else parseStringItems (.hex (k + 1) (acc * 16 + d)) cs
    | none => none

/-- Join escaped surrogate pairs into one character.  An unpaired surrogate has
no `Char`; U+FFFD stands in for it. -/
def joinSurrogates : List StrItem → List Char
  | [] => []
  | .chr c :: rest => c :: joinSurrogates rest
  | [.surr _] => [Char.ofNat 65533]
  | .surr _ :: .chr c :: rest => Char.ofNat 65533 :: c :: joinSurrogates rest
  | .surr h :: .surr l :: rest =>
    if h < 56320 ∧ 56320 ≤ l then
      Char.ofNat (65536 + (h - 55296) * 1024 + (l - 56320)) :: joinSurrogates rest
    else Char.ofNat 65533 :: joinSurrogates (.surr l :: rest)

/-- Read a string after its opening quote. -/
def parseStringBody (cs : List Char) : Option (String × List Char) :=
  match parseStringItems .plain cs with
  | some (its, rest) => some (String.mk (joinSurrogates its), rest)
  | none => none

/-- Split off a maximal run of digits. -/
def takeDigits : List Char → List Char × List Char
  | [] => ([], [])
  | c :: cs =>
    if c.isDigit then ((takeDigits cs).1.cons c, (takeDigits cs).2) else ([], c :: cs)

/-- Optional fraction part `. digit+`. -/
def parseFrac (cs : List Char) : Option (List Char × List Char) :=
  match cs with
  | c :: r =>
    if c = '.' then
      if (takeDigits r).1 = [] then none else some (c :: (takeDigits r).1, (takeDigits r).2)
    else some ([], cs)
  | [] => some ([], cs)

/-- Optional exponent part `(e|E) (+|-)? digit+`. -/
def parseExp (cs : List Char) : Option (List Char × List Char) :=
  match cs with
  | c :: r =>
    if c = 'e' ∨ c = 'E' then
      match r with
      | s :: r1 =>
        if s = '+' ∨ s = '-' then
          if (takeDigits r1).1 = [] then none
          else some (c :: s :: (takeDigits r1).1, (takeDigits r1).2)
        else if (takeDigits r).1 = [] then none
        else some (c :: (takeDigits r).1, (takeDigits r).2)
      | [] => none
    else some ([], cs)
  | [] => some ([], cs)

/-- Integer part `0 | [1-9] digit*`. -/
def parseInt (cs : List Char) : Option (List Char × List Char) :=
  match cs with
  | c :: r =>
    if c = '0' then some ([c], r)
    else if c.isDigit then some (c :: (takeDigits r).1, (takeDigits r).2)
    else none
  | [] => none

/-- A JSON number: `-? int frac? exp?`; returns its literal text. -/
def parseNumber (cs : List Char) : Option (List Char × List Char) :=
  let sign : List Char := if cs.head? = some '-' then ['-'] else []
  let cs0 := if cs.head? = some '-' then cs.drop 1 else cs
  match parseInt cs0 with
  | none => none
  | some (i, r1) =>
    match parseFrac r1 with
    | none => none
    | some (f, r2) =>
      match parseExp r2 with
      | none => none
      | some (e, r3) => some (sign ++ i ++ f ++ e, r3)

mutual
/-- Parse one JSON value (leading white space allowed). -/
def parseValue : Nat → List Char → PR JVal
  | 0, _ => .fuel
  | n + 1, cs =>
    match skipWs cs with
    | [] => .bad
    | c :: r =>
      if c = '"' then
        match parseStringBody r with
        | some (s, r1) => .ok (.str s) r1
        | none => .bad
      else if c = '[' then
        match skipWs r with
        | [] => .bad
        | c1 :: r1 =>
          if c1 = ']' then .ok (.arr []) r1
          else
            match parseValue n (c1 :: r1) with
            | .ok v r2 =>
              match parseArrTail n r2 with
              | .ok vs r3 => .ok (.arr (v :: vs)) r3
              | .bad => .bad
              | .fuel => .fuel
            | .bad => .bad
            | .fuel => .fuel
      else if c = '\x7b' then
        match skipWs r with
        | [] => .bad
        | c1 :: r1 =>
          if c1 = '\x7d' then .ok (.obj []) r1
          else
            match parseMember n (c1 :: r1) with
            | .ok (k, v) r2 =>
              match parseObjTail n r2 (setProp [] k v) with
              | .ok kvs r3 => .ok (.obj kvs) r3
              | .bad => .bad
              | .fuel => .fuel
            | .bad => .bad
            | .fuel => .fuel
      else if c = 't' then
        match dropLit ['r', 'u', 'e'] r with
        | some r1 => .ok (.bool true) r1
        | none => .bad
      else if c = 'f' then
        match dropLit ['a', 'l', 's', 'e'] r with
        | some r1 => .ok (.bool false) r1
        | none => .bad
      else if c = 'n' then
        match dropLit ['u', 'l', 'l'] r with
        | some r1 => .ok .null r1
        | none => .bad
      else
        match parseNumber (c :: r) with
        | some (lit, r1) => .ok (.num (String.mk lit)) r1
        | none => .bad
/-- After an array element: `, value ...` or the closing bracket. -/
def parseArrTail : Nat → List Char → PR (List JVal)
  | 0, _ => .fuel
  | n + 1, cs =>
    match skipWs cs with
    | [] => .bad
    | c :: r =>
      if c = ']' then .ok [] r
      else if c = ',' then
        match parseValue n r with
        | .ok v r1 =>
          match parseArrTail n r1 with
          | .ok vs r2 => .ok (v :: vs) r2
          | .bad => .bad
          | .fuel => .fuel
        | .bad => .bad
        | .fuel => .fuel
      else .bad
/-- One member `string : value` (leading white space allowed). -/
def parseMember : Nat → List Char → PR (String × JVal)
  | 0, _ => .fuel
  | n + 1, cs =>
    match skipWs cs with
    | [] => .bad
    | c :: r =>
      if c = '"' then
        match parseStringBody r with
        | some (k, r1) =>
          match skipWs r1 with
          | [] => .bad
          | c1 :: r2 =>
            if c1 = ':' then
              match parseValue n r2 with
              | .ok v r3 => .ok (k, v) r3
              | .bad => .bad
              | .fuel => .fuel
            else .bad
        | none => .bad
      else .bad
/-- After an object member: `, member ...` or the closing brace.  Members are
defined on the object in source order, so a repeated key keeps its first
position and its last value. -/
def parseObjTail : Nat → List Char → List (String × JVal) → PR (List (String × JVal))
  | 0, _, _ => .fuel
  | n + 1, cs, acc =>
    match skipWs cs with
    | [] => .bad
    | c :: r =>
      if c = '\x7d' then .ok acc r
      else if c = ',' then
        match parseMember n r with
        | .ok (k, v) r1 => parseObjTail n r1 (setProp acc k v)
        | .bad => .bad
        | .fuel => .fuel
      else .bad
end

/-- The call `JSON.parse(text)`: one value surrounded by optional white space.
The recursion fuel `2 * length + 2` is never exhausted (`jsonParse_fuel`). -/
def jsonParseChars (cs : List Char) : PR JVal :=
  match parseValue (2 * cs.length + 2) cs with
  | .ok v rest => if skipWs rest = [] then .ok v [] else .bad
  | .bad => .bad
  | .fuel => .fuel

/-- The call `JSON.parse(text)`. -/
def jsonParse (text : String) : Except JsError JVal :=
  match jsonParseChars text.toList with
  | .ok v _ => .ok v
  | _ => .error .jsonError

/-! ## String helpers of the platform -/

/-- White space and line terminators that `String.prototype.trim` strips. -/
def isJsSpace (c : Char) : Bool :=
  let n := c.toNat
  n = 9 || n = 10 || n = 11 || n = 12 || n = 13 || n = 32 || n = 160 || n = 5760 ||
  (8192 ≤ n && n ≤ 8202) || n = 8232 || n = 8233 || n = 8239 || n = 8287 || n = 12288 ||
  n = 65279

/-- The method `String.prototype.trim`. -/
def jsTrim (s : String) : String :=
  String.mk ((s.toList.dropWhile isJsSpace).reverse.dropWhile isJsSpace).reverse

/-- Length of a string in UTF-16 code units (the `length` JavaScript sees). -/
def utf16Length (s : String) : Nat :=
  (s.toList.map (fun c => if c.toNat < 65536 then 1 else 2)).sum

/-! ## localStorage -/

/-- The `localStorage` area: each key holds a string or is absent. -/
structure Storage where
  items : String → Option String

/-- The call `localStorage.getItem(key)`; `none` is the `null` of an absent key. -/
def Storage.getItem (st : Storage) (key : String) : Option String := st.items key

/-- The call `localStorage.setItem(key, value)`. -/
def Storage.setItem (st : Storage) (key value : String) : Storage :=
  ⟨fun k => if k = key then some value else st.items k⟩

/-- A storage area with no key. -/
def Storage.empty : Storage := ⟨fun _ => none⟩

/-- The expression `JSON.parse(localStorage.getItem(key)) || []`.  For an absent
key `getItem` returns `null`, which `JSON.parse` converts to the text `null`. -/
def readList (st : Storage) (key : String) : Except JsError JVal :=
  match jsonParse ((st.getItem key).getD "null") with
  | .ok v => .ok (v.or (.arr []))
  | .error e => .error e

/-- A handler run: the state it leaves behind and the exception it raised, if
any.  An exception aborts the handler; what it wrote before stays written. -/
structure Outcome (σ : Type) where
  state : σ
  threw : Option JsError

/-! ## To-do list and notes -/

/-- A rendered `li` of `#todo-list`. -/
structure TodoItem where
  /-- whether the `li` carries the class `completed` -/
  completed : Bool
  /-- the value assigned to `textSpan.textContent` -/
  text : JVal
  /-- the index captured by the toggle and delete click handlers -/
  index : Nat

/-- A rendered `div.note` of `#notes-container`. -/
structure NoteView where
  /-- the value assigned to `textarea.value` -/
  value : JVal
  /-- the index captured by the input and delete handlers -/
  index : Nat

/-- The part of the page the to-do list and the notes pad touch. -/
structure Page where
  storage : Storage
  /-- value of `#todo-input` -/
  todoInput : String
  /-- children of `#todo-list` -/
  todoList : List TodoItem
  /-- children of `#notes-container` -/
  notesContainer : List NoteView

/-- The body of `tasks.forEach((task, index) => ...)` in `loadTasks`, from
index `i` on: the items appended and the exception that stopped the loop. -/
def renderTasks : List JVal → Nat → List TodoItem × Option JsError
  | [], _ => ([], none)
  | task :: rest, i =>
    match task.getProp "completed" with
    | .error e => ([], some e)
    | .ok c =>
      match task.getProp "text" with
      | .error e => ([], some e)
      | .ok t => (⟨c.truthy, t, i⟩ :: (renderTasks rest (i + 1)).1, (renderTasks rest (i + 1)).2)

/-- The function `loadTasks`. -/
def loadTasks (p : Page) : Outcome Page :=
  match readList p.storage "tasks" with
  | .error e => ⟨p, some e⟩
  | .ok tasks =>
    match tasks with
    | .arr xs => ⟨{ p with todoList := (renderTasks xs 0).1 }, (renderTasks xs 0).2⟩
    | _ => ⟨{ p with todoList := [] }, some .typeError⟩

/-- The function `addTask`, run on submission of `#todo-form`. -/
def addTask (p : Page) : Outcome Page :=
  let text := jsTrim p.todoInput
  if text = "" then ⟨p, none⟩
  else
    match readList p.storage "tasks" with
    | .error e => ⟨p, some e⟩
    | .ok tasks =>
      match tasks with
      | .arr xs =>
        let tasks1 := JVal.arr (xs ++ [.obj [("text", .str text), ("completed", .bool false)]])
        loadTasks { p with
          storage := p.storage.setItem "tasks" (jsonStringify tasks1), todoInput := "" }
      | _ => ⟨p, some .typeError⟩

/-- The assignment `t.completed = !t.completed` on the value `t` found at
`tasks[index]`: an object gets the negated flag, `undefined` and `null` throw,
and on a primitive or an array the assignment leaves nothing behind that
`JSON.stringify` would print. -/
def toggleCompleted (t : JVal) : Except JsError JVal :=
  match t with
  | .undefined => .error .typeError
  | .null => .error .typeError
  | .obj kvs => .ok (.obj (setProp kvs "completed" (.bool (!(lookupProp kvs "completed").truthy))))
  | v => .ok v

/-- The statement `tasks[index].completed = !tasks[index].completed`.  When
`tasks[index]` is `undefined` the read throws; otherwise the element is where
it was, so writing it back keeps its place.  A string has one-unit strings at
its indices, a number or boolean has nothing. -/
def toggleAt (tasks : JVal) (index : Nat) : Except JsError JVal :=
  match tasks with
  | .arr xs =>
    match toggleCompleted (xs.getD index .undefined) with
    | .ok t => .ok (.arr (xs.set index t))
    | .error e => .error e
  | .obj kvs =>
    match toggleCompleted (lookupProp kvs (Nat.repr index)) with
    | .ok t => .ok (.obj (setProp kvs (Nat.repr index) t))
    | .error e => .error e
  | .str s => if index < utf16Length s then .ok (.str s) else .error .typeError
  | _ => .error .typeError

/-- The function `toggleTask`. -/
def toggleTask (index : Nat) (p : Page) : Outcome Page :=
  match readList p.storage "tasks" with
  | .error e => ⟨p, some e⟩
  | .ok tasks =>
    match toggleAt tasks index with
    | .error e => ⟨p, some e⟩
    | .ok tasks1 =>
      loadTasks { p with storage := p.storage.setItem "tasks" (jsonStringify tasks1) }

/-- The call `list.splice(index, 1)` for a non-negative index; a value without
a `splice` method throws. -/
def spliceAt (list : JVal) (index : Nat) : Except JsError JVal :=
  match list with
  | .arr xs => .ok (.arr (xs.eraseIdx index))
  | _ => .error .typeError

/-- The function `deleteTask`. -/
def deleteTask (index : Nat) (p : Page) : Outcome Page :=
  match readList p.storage "tasks" with
  | .error e => ⟨p, some e⟩
  | .ok tasks =>
    match spliceAt tasks index with
    | .error e => ⟨p, some e⟩
    | .ok tasks1 =>
      loadTasks { p with storage := p.storage.setItem "tasks" (jsonStringify tasks1) }

/-- The body of `notes.forEach((note, index) => ...)` in `loadNotes`. -/
def renderNotes : List JVal → Nat → List NoteView
  | [], _ => []
  | note :: rest, i => ⟨note, i⟩ :: renderNotes rest (i + 1)

/-- The function `loadNotes`. -/
def loadNotes (p : Page) : Outcome Page :=
  match readList p.storage "notes" with
  | .error e => ⟨p, some e⟩
  | .ok notes =>
    match notes with
    | .arr xs => ⟨{ p with notesContainer := renderNotes xs 0 }, none⟩
    | _ => ⟨{ p with notesContainer := [] }, some .typeError⟩

/-- The function `addNote`. -/
def addNote (p : Page) : Outcome Page :=
  match readList p.storage "notes" with
  | .error e => ⟨p, some e⟩
  | .ok notes =>
    match notes with
    | .arr xs =>
      loadNotes { p with storage := p.storage.setItem "notes" (jsonStringify (.arr (xs ++ [.str ""]))) }
    | _ => ⟨p, some .typeError⟩

/-- The assignment `notes[index] = value`: an array is overwritten in place or
grown (the skipped positions are holes, which print like `undefined`); past the
largest array index the assignment only adds a named property that
`JSON.stringify` does not print; an object gets the property; on a primitive
the assignment is ignored. -/
def assignIndex (notes : JVal) (index : Nat) (value : JVal) : JVal :=
  match notes with
  | .arr xs =>
    if index < xs.length then .arr (xs.set index value)
    else if index ≤ 4294967294 then
      .arr (xs ++ (List.replicate (index - xs.length) .undefined ++ [value]))
    else .arr xs
  | .obj kvs => .obj (setProp kvs (Nat.repr index) value)
  | v => v

/-- The function `updateNote`. -/
def updateNote (index : Nat) (value : String) (p : Page) : Outcome Page :=
  match readList p.storage "notes" with
  | .error e => ⟨p, some e⟩
  | .ok notes =>
    ⟨{ p with storage :=
        p.storage.setItem "notes" (jsonStringify (assignIndex notes index (.str value))) }, none⟩

/-- The function `deleteNote`. -/
def deleteNote (index : Nat) (p : Page) : Outcome Page :=
  match readList p.storage "notes" with
  | .error e => ⟨p, some e⟩
  | .ok notes =>
    match spliceAt notes index with
    | .error e => ⟨p, some e⟩
    | .ok notes1 =>
      loadNotes { p with storage := p.storage.setItem "notes" (jsonStringify notes1) }

/-! ## Calendar adapter -/

/-- An event held by the calendar widget, as `updateStoredEvents` reads it:
`start` and `end` are the texts `toISOString()` returns for its dates. -/
structure CalEvent where
  title : String
  start : String
  endIso : Option String

/-- The calendar widget is an external library (FullCalendar).  What the script
relies on: the widget keeps a list of events, turns each event input object
into an event (or rejects it), `addEvent` appends the event and then notifies
`eventAdd` before it returns, and an edit or removal in its UI notifies
`eventChange` / `eventRemove` after the widget has changed its list.  How an
input becomes an event (date parsing, time zone) is the parameter `ingest`. -/
structure WidgetLib where
  ingest : JVal → Option CalEvent

/-- State of the calendar adapter after `initCalendar`. -/
structure Calendar where
  storage : Storage
  /-- the closure variable `savedEvents` -/
  savedEvents : List JVal
  /-- the constant `parsedEvents`, passed to the widget constructor as its
  `events` option -/
  initialEvents : List JVal
  /-- what `calendar.getEvents()` returns -/
  events : List CalEvent
  /-- value of `#event-title` -/
  eventTitle : String
  /-- value of `#event-date` -/
  eventDate : String

/-- The callback of `savedEvents.map(...)`: the event input handed to the
widget for one stored record. -/
def parseEvent (evt : JVal) : Except JsError JVal :=
  match evt.getProp "title" with
  | .error e => .error e
  | .ok title =>
    match evt.getProp "start" with
    | .error e => .error e
    | .ok start =>
      match evt.getProp "end" with
      | .error e => .error e
      | .ok en => .ok (.obj [("title", title), ("start", start), ("end", en.or .null)])

/-- The call `savedEvents.map(...)` on an array. -/
def mapEvents : List JVal → Except JsError (List JVal)
  | [] => .ok []
  | evt :: rest =>
    match parseEvent evt with
    | .error e => .error e
    | .ok x =>
      match mapEvents rest with
      | .error e => .error e
      | .ok xs => .ok (x :: xs)

/-- The constant `parsedEvents` of `initCalendar`: the stored list as read from
`localStorage`, mapped to event inputs. -/
def parsedEvents (st : Storage) : Except JsError (List JVal) :=
  match readList st "events" with
  | .error e => .error e
  | .ok saved =>
    match saved with
    | .arr xs => mapEvents xs
    | _ => .error .typeError

/-- The function `initCalendar` up to `calendar.render()`: the stored list is
read into `savedEvents`, mapped to `parsedEvents`, and the widget is built with
`events: parsedEvents`; the form inputs start empty. -/
def initCalendar (lib : WidgetLib) (st : Storage) : Except JsError Calendar :=
  match readList st "events" with
  | .error e => .error e
  | .ok saved =>
    match saved with
    | .arr xs =>
      match mapEvents xs with
      | .error e => .error e
      | .ok inputs => .ok ⟨st, xs, inputs, inputs.filterMap lib.ingest, "", ""⟩
    | _ => .error .typeError

/-- The record `updateStoredEvents` writes for one widget event. -/
def storedRecord (evt : CalEvent) : JVal :=
  .obj [("title", .str evt.title), ("start", .str evt.start),
    ("end", match evt.endIso with
      | some e => .str e
      | none => .null)]

/-- The function `updateStoredEvents`: all events of the widget are written. -/
def updateStoredEvents (c : Calendar) : Calendar :=
  { c with storage := c.storage.setItem "events" (jsonStringify (.arr (c.events.map storedRecord))) }

/-- The call `calendar.addEvent(eventObj)`: an accepted input is appended and
`eventAdd` (bound to `updateStoredEvents`) is notified. -/
def calendarAddEvent (lib : WidgetLib) (eventObj : JVal) (c : Calendar) : Calendar :=
  match lib.ingest eventObj with
  | some ev => updateStoredEvents { c with events := c.events ++ [ev] }
  | none => c

/-- The click handler of `#add-event`. -/
def addEventClick (lib : WidgetLib) (c : Calendar) : Calendar :=
  let title := jsTrim c.eventTitle
  let date := c.eventDate
  if title = "" ∨ date = "" then c
  else
    let eventObj := JVal.obj [("title", .str title), ("start", .str date)]
    let c1 := calendarAddEvent lib eventObj c
    let saved := c1.savedEvents ++ [eventObj]
    { c1 with
      savedEvents := saved
      storage := c1.storage.setItem "events" (jsonStringify (.arr saved))
      eventTitle := ""
      eventDate := "" }

/-- What can happen to the adapter after init: the user fills the form and
clicks `#add-event`, or edits or removes an event in the widget UI. -/
inductive CalAction where
  | manualAdd (title date : String)
  | widgetChange (index : Nat) (ev : CalEvent)
  | widgetRemove (index : Nat)

/-- One action on the adapter. -/
def calStep (lib : WidgetLib) (c : Calendar) : CalAction → Calendar
  | .manualAdd title date => addEventClick lib { c with eventTitle := title, eventDate := date }
  | .widgetChange i ev =>
    if i < c.events.length then updateStoredEvents { c with events := c.events.set i ev } else c
  | .widgetRemove i =>
    if i < c.events.length then updateStoredEvents { c with events := c.events.eraseIdx i } else c

/-- A sequence of actions on the adapter. -/
def calRun (lib : WidgetLib) (c : Calendar) (acts : List CalAction) : Calendar :=
  acts.foldl (calStep lib) c

/-! ## Chat -/

/-- A document of the `messages` collection; its `timestamp` is assigned by the
server and only orders the collection. -/
structure ChatMessage where
  name : String
  text : String

/-- The text content of the `div.message` rendered for one document. -/
def renderMessage (data : ChatMessage) : String :=
  (if data.name ≠ "" then data.name else "익명") ++ ": " ++ data.text

/-- The `onSnapshot` listener: the children of `#chat-messages` after a
snapshot. -/
def renderSnapshot (snapshot : List ChatMessage) : List String :=
  snapshot.map renderMessage

/-- The submit handler of `#chat-form`: the document passed to
`messagesRef.add`, if any, for the given values of `#chat-name` and
`#chat-message`. -/
def chatSubmit (chatName chatMessage : String) : Option ChatMessage :=
  let name := jsTrim chatName
  let text := jsTrim chatMessage
  if text = "" then none else some ⟨name, text⟩

/-! ## Weather -/

/-- A finite JavaScript Number, as the rational `± num / den` it denotes
(`den` positive). -/
structure JsNumber where
  neg : Bool
  num : Nat
  den : Nat

/-- The integer `n` for which `n / 10 - x` is as close to zero as possible,
the larger one on a tie (`Number.prototype.toFixed`, step for one fraction
digit), for `x = num / den`. -/
def roundTenths (x : JsNumber) : Nat := (20 * x.num + x.den) / (2 * x.den)

/-- The call `x.toFixed(1)` for a Number below `10^21` in magnitude (from
there on JavaScript prints exponent notation, which is not reproduced). -/
def toFixed1 (x : JsNumber) : String :=
  (if x.neg ∧ x.num ≠ 0 then "-" else "") ++
    Nat.repr (roundTenths x / 10) ++ "." ++ Nat.repr (roundTenths x % 10)

/-- The fields `fetchWeather` reads from the response: `weather[0].icon`,
`weather[0].description`, `name` and `main.temp`. -/
structure WeatherData where
  icon : String
  description : String
  name : String
  temp : JsNumber

/-- The template `weatherHtml` built in `fetchWeather`. -/
def weatherHtml (data : WeatherData) : String :=
  "\n        <img src=\"" ++ ("https://openweathermap.org/img/wn/" ++ data.icon ++ "@2x.png") ++
    "\" alt=\"" ++ data.description ++ "\" />\n        <div>\n          <p><strong>" ++
    data.name ++ "</strong></p>\n          <p>" ++ toFixed1 data.temp ++ "°C – " ++
    data.description ++ "</p>\n        </div>\n      "

/-- The function `fetchWeather` for a configured key and the response the
request resolves to: the new `innerHTML` of `#weather-info`, or `none` when the
key is missing or still the placeholder and the panel is left alone. -/
def fetchWeather (weatherApiKey : String) (data : WeatherData) : Option String :=
  if weatherApiKey = "" ∨ weatherApiKey = "YOUR_OPENWEATHERMAP_API_KEY" then none
  else some (weatherHtml data)

/-! ## Values that survive a round trip through storage -/

mutual
/-- Values that `JSON.stringify` prints and `JSON.parse` reads back unchanged:
no `undefined`, no number, and objects whose keys are distinct and none an
array index.  Every list the script writes for tasks and notes is of this
kind. -/
def JVal.Plain : JVal → Prop
  | .undefined => False
  | .null => True
  | .bool _ => True
  | .num _ => False
  | .str _ => True
  | .arr xs => plainList xs
  | .obj kvs => plainMembers kvs
/-- All elements are plain. -/
def plainList : List JVal → Prop
  | [] => True
  | x :: xs => x.Plain ∧ plainList xs
/-- All member values are plain, the keys distinct and none an array index. -/
def plainMembers : List (String × JVal) → Prop
  | [] => True
  | (k, v) :: kvs => v.Plain ∧ arrayIndex? k = none ∧ (∀ q ∈ kvs, q.1 ≠ k) ∧ plainMembers kvs
end

/-! ## The data model of the specification -/

/-- A task of the data model: `{ text, completed }`. -/
structure Task where
  text : String
  completed : Bool
  deriving DecidableEq, Repr

/-- The JavaScript object of a task, as `addTask` builds it. -/
def Task.toJs (t : Task) : JVal :=
  .obj [("text", .str t.text), ("completed", .bool t.completed)]

/-- The list `key` holds, as the script reads it, is the task list `ts`. -/
def PersistsTasks (st : Storage) (ts : List Task) : Prop :=
  readList st "tasks" = .ok (.arr (ts.map Task.toJs))

/-- The list `notes` holds, as the script reads it, is the list of strings
`ns`. -/
def PersistsNotes (st : Storage) (ns : List String) : Prop :=
  readList st "notes" = .ok (.arr (ns.map JVal.str))

/-- An operation on the task list: a form submission with the given input
value, or a click on the label or the trash icon rendered for an index. -/
inductive TaskOp where
  | add (input : String)
  | toggle (index : Nat)
  | delete (index : Nat)

/-- One operation on the page.  An exception ends the handler, not the page:
the next event finds the page as the handler left it. -/
def applyOp (p : Page) : TaskOp → Page
  | .add input => (addTask { p with todoInput := input }).state
  | .toggle i => (toggleTask i p).state
  | .delete i => (deleteTask i p).state

/-- A sequence of operations on the page. -/
def runOps (p : Page) (ops : List TaskOp) : Page := ops.foldl applyOp p

/-- In-memory simulation of one operation, following the wording of the
specification: add appends `{text, completed: false}` for the trimmed input (and
does nothing for a blank one), toggle negates `completed` at the index, delete
removes the element at the index. -/
def simOp (ts : List Task) : TaskOp → List Task
  | .add input => if jsTrim input = "" then ts else ts ++ [⟨jsTrim input, false⟩]
  | .toggle i => ts.modify (fun t => { t with completed := !t.completed }) i
  | .delete i => ts.eraseIdx i

/-- In-memory simulation of a sequence of operations. -/
def simOps (ts : List Task) (ops : List TaskOp) : List Task := ops.foldl simOp ts

/-! ## Sample data for worked examples -/

/-- A widget for worked examples: it accepts an input whose `title` and `start`
are strings and reads the date-only `start` as midnight UTC, with no end. -/
def sampleWidget : WidgetLib :=
  ⟨fun v =>
    match v.getProp "title", v.getProp "start" with
    | .ok (.str t), .ok (.str s) => some ⟨t, s ++ "T00:00:00.000Z", none⟩
    | _, _ => none⟩

/-- A page with nothing stored and nothing rendered. -/
def blankPage : Page := ⟨Storage.empty, "", [], []⟩

/-- A response is well formed when its temperature is a finite Number with a
positive denominator, below `10^21` in magnitude. -/
def WeatherData.WellFormed (data : WeatherData) : Prop :=
  0 < data.temp.den ∧ data.temp.num < 10 ^ 21 * data.temp.den

/-- The response of the specification's example; `23.456` is the double
`6602277053725147 / 2^48`. -/
def sampleWeather : WeatherData :=
  ⟨"01d", "clear sky", "Haeundae", ⟨false, 6602277053725147, 281474976710656⟩⟩

/-- Three tasks for worked examples. -/
def sampleTasks : List Task := [⟨"a", false⟩, ⟨"b", true⟩, ⟨"c", false⟩]

/-- A page whose storage holds `sampleTasks`, as `addTask` would have written
them. -/
def sampleTasksPage : Page :=
  { blankPage with
    storage := Storage.empty.setItem "tasks"
      ("[\x7b\"text\":\"a\",\"completed\":false\x7d,\x7b\"text\":\"b\",\"completed\":true\x7d," ++
        "\x7b\"text\":\"c\",\"completed\":false\x7d]") }

/-- A page whose storage holds the single note `x`. -/
def sampleNotesPage : Page :=
  { blankPage with storage := Storage.empty.setItem "notes" "[\"x\"]" }

/-- Two stored event records: one as the add-event form writes it plus a custom
`id`, one as `updateStoredEvents` writes it. -/
def sampleEventRecords : List (List (String × JVal)) :=
  [[("title", .str "A"), ("start", .str "2024-01-01"), ("id", .num "7")],
   [("title", .str "B"), ("start", .str "2024-02-02T10:00:00.000Z"),
    ("end", .str "2024-02-02T11:00:00.000Z")]]

/-- A storage area holding `sampleEventRecords` under `events`. -/
def sampleEventStorage : Storage :=
  Storage.empty.setItem "events"
    ("[\x7b\"title\":\"A\",\"start\":\"2024-01-01\",\"id\":7\x7d, " ++
      "\x7b\"title\":\"B\",\"start\":\"2024-02-02T10:00:00.000Z\"," ++
      "\"end\":\"2024-02-02T11:00:00.000Z\"\x7d]")

/-! ## Lemmas: string escapes -/

theorem hexVal_hexDigit (n : Nat) (h : n < 16) : hexVal (hexDigit n) = some n := by
  interval_cases n <;> rfl

theorem joinSurrogates_chr (cs : List Char) : joinSurrogates (cs.map StrItem.chr) = cs := by
  induction cs with
  | nil => rfl
  | cons c cs ih => simp [joinSurrogates, ih]

theorem control_escape (c : Char) (h : c.toNat < 32) (tl : List Char) :
    parseStringItems .plain ('\\' :: 'u' :: '0' :: '0' :: hexDigit (c.toNat / 16) :: hexDigit (c.toNat % 16) :: tl)
      = match parseStringItems .plain tl with
        | some (its, rest) => some (StrItem.chr c :: its, rest)
        | none => none := by
  have hc : Char.ofNat c.toNat = c := Char.ofNat_toNat c
  generalize c.toNat = n at h hc
  subst hc
  interval_cases n <;> rfl

theorem parseStringItems_quoteBody (cs rest : List Char) :
    parseStringItems .plain (quoteBody cs ++ '"' :: rest) = some (cs.map StrItem.chr, rest) := by
  induction cs with
  | nil => simp [quoteBody, parseStringItems]
  | cons c cs ih =>
    simp only [quoteBody, quoteChar]
    split_ifs with h1 h2 h3 h4 h5 h6 h7 h8
    · subst h1; simp [parseStringItems, unescape, ih]
    · subst h2; simp [parseStringItems, unescape, ih]
    · subst h3; simp [parseStringItems, unescape, ih]
    · subst h4; simp [parseStringItems, unescape, ih]
    · subst h5; simp [parseStringItems, unescape, ih]
    · subst h6; simp [parseStringItems, unescape, ih]
    · subst h7; simp [parseStringItems, unescape, ih]
    · simp only [List.cons_append, List.nil_append]
      rw [control_escape c h8, ih]
      simp
    · simp [parseStringItems, h1, h2, h8, ih]

theorem parseStringBody_quote (s : String) (rest : List Char) :
    parseStringBody (quoteBody s.data ++ '"' :: rest) = some (s, rest) := by
  simp [parseStringBody, parseStringItems_quoteBody, joinSurrogates_chr]

/-! ## Lemmas: `JSON.parse` reads back what `JSON.stringify` prints -/

/-- The first character of a printed plain value. -/
theorem serialize_head (v : JVal) (h : v.Plain) :
    ∃ c tl, serialize v = c :: tl ∧ isJsonWs c = false ∧ c ≠ ']' ∧ c ≠ '\x7d' ∧ c ≠ ',' := by
  cases v with
  | undefined => simp [JVal.Plain] at h
  | null => exact ⟨'n', ['u', 'l', 'l'], by simp [serialize], by decide, by decide, by decide, by decide⟩
  | bool b =>
    cases b
    · exact ⟨'f', ['a', 'l', 's', 'e'], by simp [serialize], by decide, by decide, by decide, by decide⟩
    · exact ⟨'t', ['r', 'u', 'e'], by simp [serialize], by decide, by decide, by decide, by decide⟩
  | num l => simp [JVal.Plain] at h
  | str s =>
    exact ⟨'"', quoteBody s.toList ++ ['"'], by simp [serialize, quoteJSONString],
      by decide, by decide, by decide, by decide⟩
  | arr xs =>
    exact ⟨'[', (serializeElems xs).drop 1 ++ [']'], by simp [serialize],
      by decide, by decide, by decide, by decide⟩
  | obj kvs =>
    exact ⟨'\x7b', (serializeMembers kvs).drop 1 ++ ['\x7d'], by simp [serialize],
      by decide, by decide, by decide, by decide⟩

theorem setProp_fresh (acc : List (String × JVal)) (k : String) (v : JVal)
    (hk : arrayIndex? k = none) (hne : ∀ q ∈ acc, q.1 ≠ k) :
    setProp acc k v = acc ++ [(k, v)] := by
  unfold setProp
  have : acc.any (fun p => p.1 = k) = false := by
    simp only [List.any_eq_false, decide_eq_true_eq]
    exact fun q hq => hne q hq
  simp [this, hk]

theorem serializeMembers_cons (k : String) (v : JVal) (kvs : List (String × JVal)) (h : v.Plain) :
    serializeMembers ((k, v) :: kvs)
      = ',' :: (quoteJSONString k ++ (':' :: (serialize v ++ serializeMembers kvs))) := by
  cases v with
  | undefined => exact absurd h (by simp [JVal.Plain])
  | num l => exact absurd h (by simp [JVal.Plain])
  | _ => simp [serializeMembers]



theorem ws_chars : isJsonWs '[' = false ∧ isJsonWs ']' = false ∧ isJsonWs '\x7b' = false ∧
    isJsonWs '\x7d' = false ∧ isJsonWs ',' = false ∧ isJsonWs ':' = false ∧ isJsonWs '"' = false ∧
    isJsonWs 'n' = false ∧ isJsonWs 't' = false ∧ isJsonWs 'f' = false := by decide

theorem quoteJSON_append (k : String) (rest : List Char) :
    quoteJSONString k ++ rest = '"' :: (quoteBody k.data ++ '"' :: rest) := by
  simp [quoteJSONString]

mutual
theorem parseValue_serialize : ∀ (v : JVal), v.Plain → ∀ (n : Nat) (rest : List Char),
    (serialize v).length ≤ n → parseValue n (serialize v ++ rest) = PR.ok v rest
  | .undefined, h, _, _, _ => absurd h (by simp [JVal.Plain])
  | .num _, h, _, _, _ => absurd h (by simp [JVal.Plain])
  | .null, _, n, rest, hn => by
    obtain ⟨m, rfl⟩ : ∃ m, n = m + 1 := ⟨n - 1, by simp [serialize] at hn; omega⟩
    simp [serialize, parseValue, skipWs, ws_chars, dropLit]
  | .bool true, _, n, rest, hn => by
    obtain ⟨m, rfl⟩ : ∃ m, n = m + 1 := ⟨n - 1, by simp [serialize] at hn; omega⟩
    simp [serialize, parseValue, skipWs, ws_chars, dropLit]
  | .bool false, _, n, rest, hn => by
    obtain ⟨m, rfl⟩ : ∃ m, n = m + 1 := ⟨n - 1, by simp [serialize] at hn; omega⟩
    simp [serialize, parseValue, skipWs, ws_chars, dropLit]
  | .str s, _, n, rest, hn => by
    obtain ⟨m, rfl⟩ : ∃ m, n = m + 1 := ⟨n - 1, by simp [serialize, quoteJSONString] at hn; omega⟩
    simp only [serialize, quoteJSON_append]
    simp [parseValue, skipWs, ws_chars, parseStringBody_quote]
  | .arr [], _, n, rest, hn => by
    obtain ⟨m, rfl⟩ : ∃ m, n = m + 1 := ⟨n - 1, by simp [serialize] at hn; omega⟩
    simp [serialize, serializeElems, parseValue, skipWs, ws_chars]
  | .arr (x :: xs), h, n, rest, hn => by
    have hx : x.Plain := by simp [JVal.Plain, plainList] at h; exact h.1
    have hxs : plainList xs := by simp [JVal.Plain, plainList] at h; exact h.2
    simp only [serialize, serializeElems, List.drop_succ_cons, List.drop_zero, List.length_cons,
      List.length_append, List.length_nil] at hn
    obtain ⟨m, rfl⟩ : ∃ m, n = m + 1 := ⟨n - 1, by omega⟩
    obtain ⟨c, tl, hc, hws, hb, _, _⟩ := serialize_head x hx
    have e1 := parseValue_serialize x hx m (serializeElems xs ++ ']' :: rest) (by omega)
    have e2 := parseArrTail_serialize xs hxs m rest (by omega)
    simp only [serialize, serializeElems, List.drop_succ_cons, List.drop_zero, List.cons_append,
      List.append_assoc, List.nil_append]
    rw [hc] at e1 ⊢
    simp only [List.cons_append] at e1 ⊢
    simp [parseValue, skipWs, ws_chars, hws, hb, e1, e2]
  | .obj [], _, n, rest, hn => by
    obtain ⟨m, rfl⟩ : ∃ m, n = m + 1 := ⟨n - 1, by simp [serialize] at hn; omega⟩
    simp [serialize, serializeMembers, parseValue, skipWs, ws_chars]
  | .obj ((k, v) :: kvs), h, n, rest, hn => by
    obtain ⟨hv, hk, hne, hkvs⟩ : v.Plain ∧ arrayIndex? k = none ∧ (∀ q ∈ kvs, q.1 ≠ k) ∧
        plainMembers kvs := by simpa [JVal.Plain, plainMembers] using h
    simp only [serialize, serializeMembers_cons k v kvs hv, List.drop_succ_cons, List.drop_zero,
      List.length_cons, List.length_append, List.length_nil, quoteJSONString] at hn
    obtain ⟨m, rfl⟩ : ∃ m, n = m + 1 := ⟨n - 1, by omega⟩
    obtain ⟨m1, rfl⟩ : ∃ m1, m = m1 + 1 := ⟨m - 1, by omega⟩
    have e1 := parseValue_serialize v hv m1 (serializeMembers kvs ++ '\x7d' :: rest) (by omega)
    have e2 := parseObjTail_serialize kvs hkvs (m1 + 1) rest [(k, v)] (by omega)
      (by intro p hp q hq; simp at hq; subst hq; exact (hne p hp).symm)
    simp only [serialize, serializeMembers_cons k v kvs hv, List.drop_succ_cons, List.drop_zero,
      List.cons_append, List.append_assoc, List.nil_append, quoteJSON_append]
    simp [parseValue, parseMember, skipWs, ws_chars, parseStringBody_quote, e1,
      setProp_fresh [] k v hk, e2]
theorem parseArrTail_serialize : ∀ (xs : List JVal), plainList xs → ∀ (n : Nat) (rest : List Char),
    (serializeElems xs).length + 1 ≤ n →
      parseArrTail n (serializeElems xs ++ ']' :: rest) = PR.ok xs rest
  | [], _, n, rest, hn => by
    obtain ⟨m, rfl⟩ : ∃ m, n = m + 1 := ⟨n - 1, by omega⟩
    simp [serializeElems, parseArrTail, skipWs, ws_chars]
  | x :: xs, h, n, rest, hn => by
    have hx : x.Plain := h.1
    have hxs : plainList xs := h.2
    simp only [serializeElems, List.length_cons, List.length_append] at hn
    obtain ⟨m, rfl⟩ : ∃ m, n = m + 1 := ⟨n - 1, by omega⟩
    have e1 := parseValue_serialize x hx m (serializeElems xs ++ ']' :: rest) (by omega)
    have e2 := parseArrTail_serialize xs hxs m rest (by omega)
    simp only [serializeElems, List.cons_append, List.append_assoc]
    simp [parseArrTail, skipWs, ws_chars, e1, e2]
theorem parseObjTail_serialize : ∀ (kvs : List (String × JVal)), plainMembers kvs →
    ∀ (n : Nat) (rest : List Char) (acc : List (String × JVal)),
    (serializeMembers kvs).length + 1 ≤ n → (∀ p ∈ kvs, ∀ q ∈ acc, q.1 ≠ p.1) →
      parseObjTail n (serializeMembers kvs ++ '\x7d' :: rest) acc = PR.ok (acc ++ kvs) rest
  | [], _, n, rest, acc, hn, _ => by
    obtain ⟨m, rfl⟩ : ∃ m, n = m + 1 := ⟨n - 1, by omega⟩
    simp [serializeMembers, parseObjTail, skipWs, ws_chars]
  | (k, v) :: kvs, h, n, rest, acc, hn, hacc => by
    obtain ⟨hv, hk, hne, hkvs⟩ := h
    simp only [serializeMembers_cons k v kvs hv, List.length_cons, List.length_append,
      quoteJSONString] at hn
    obtain ⟨m, rfl⟩ : ∃ m, n = m + 1 := ⟨n - 1, by omega⟩
    obtain ⟨m1, rfl⟩ : ∃ m1, m = m1 + 1 := ⟨m - 1, by omega⟩
    have e1 := parseValue_serialize v hv m1 (serializeMembers kvs ++ '\x7d' :: rest) (by omega)
    have hfresh : setProp acc k v = acc ++ [(k, v)] :=
      setProp_fresh acc k v hk (fun q hq => hacc (k, v) (List.mem_cons_self _ _) q hq)
    have e2 := parseObjTail_serialize kvs hkvs (m1 + 1) rest (acc ++ [(k, v)]) (by omega)
      (by
        intro p hp q hq
        rcases List.mem_append.1 hq with hq | hq
        · exact hacc p (List.mem_cons_of_mem _ hp) q hq
        · simp at hq; subst hq; exact (hne p hp).symm)
    simp only [serializeMembers_cons k v kvs hv, List.cons_append, List.append_assoc,
      quoteJSON_append]
    rw [parseObjTail]
    simp [parseMember, skipWs, ws_chars, parseStringBody_quote, e1, hfresh, e2]
end

theorem jsonParse_stringify (v : JVal) (h : v.Plain) : jsonParse (jsonStringify v) = .ok v := by
  have e := parseValue_serialize v h (2 * (serialize v).length + 2) [] (by omega)
  simp only [List.append_nil] at e
  simp [jsonParse, jsonParseChars, jsonStringify, e, skipWs]

theorem readList_setItem (st : Storage) (key : String) (xs : List JVal) (h : (JVal.arr xs).Plain) :
    readList (st.setItem key (jsonStringify (.arr xs))) key = .ok (.arr xs) := by
  simp [readList, Storage.setItem, Storage.getItem, jsonParse_stringify _ h, JVal.or, JVal.truthy]

theorem plain_task (t : Task) : t.toJs.Plain := by
  simp only [Task.toJs, JVal.Plain, plainMembers]
  refine ⟨trivial, by decide, by simp, trivial, by decide, by simp, trivial⟩

theorem plain_tasks (ts : List Task) : plainList (ts.map Task.toJs) := by
  induction ts with
  | nil => simp [plainList]
  | cons t ts ih => exact ⟨plain_task t, ih⟩

theorem plain_notes (ns : List String) : plainList (ns.map JVal.str) := by
  induction ns with
  | nil => simp [plainList]
  | cons n ns ih => exact ⟨by simp [JVal.Plain], ih⟩

/-! ## Lemmas: the parser never runs out of fuel -/

theorem skipWs_length (cs : List Char) : (skipWs cs).length ≤ cs.length := by
  induction cs with
  | nil => simp [skipWs]
  | cons c cs ih =>
    simp only [skipWs]
    split
    · simp only [List.length_cons]; omega
    · exact Nat.le_refl _

theorem skipWs_eq_cons (cs : List Char) (c : Char) (r : List Char) (h : skipWs cs = c :: r) :
    r.length + 1 ≤ cs.length := by
  have := skipWs_length cs
  rw [h] at this
  simpa using this

theorem parseStringItems_length (cs : List Char) :
    ∀ (m : StrMode) (its : List StrItem) (rest : List Char),
      parseStringItems m cs = some (its, rest) → rest.length ≤ cs.length := by
  induction cs with
  | nil => intro m its rest h; cases m <;> simp [parseStringItems] at h
  | cons c cs ih =>
    intro m its rest h
    cases m with
    | plain =>
      simp only [parseStringItems] at h
      split at h
      · simp at h; rw [← h.2]; simp
      · split at h
        · have := ih _ _ _ h; simp only [List.length_cons]; omega
        · split at h
          · simp at h
          · split at h
            · rename_i its1 rest1 h1
              simp at h
              have := ih _ _ _ h1
              rw [← h.2]; simp only [List.length_cons]; omega
            · simp at h
    | esc =>
      simp only [parseStringItems] at h
      split at h
      · have := ih _ _ _ h; simp only [List.length_cons]; omega
      · split at h
        · split at h
          · rename_i its1 rest1 h1
            simp at h
            have := ih _ _ _ h1
            rw [← h.2]; simp only [List.length_cons]; omega
          · simp at h
        · simp at h
    | hex k acc =>
      simp only [parseStringItems] at h
      split at h
      · split at h
        · split at h
          · rename_i its1 rest1 h1
            simp at h
            have := ih _ _ _ h1
            rw [← h.2]; simp only [List.length_cons]; omega
          · simp at h
        · have := ih _ _ _ h; simp only [List.length_cons]; omega
      · simp at h

theorem parseStringBody_length (cs : List Char) (s : String) (rest : List Char)
    (h : parseStringBody cs = some (s, rest)) : rest.length ≤ cs.length := by
  unfold parseStringBody at h
  split at h
  · rename_i its rest1 h1
    simp at h
    rw [← h.2]
    exact parseStringItems_length cs _ _ _ h1
  · simp at h

theorem dropLit_length (l cs rest : List Char) (h : dropLit l cs = some rest) :
    rest.length ≤ cs.length := by
  induction l generalizing cs with
  | nil => simp [dropLit] at h; rw [h]
  | cons a l ih =>
    cases cs with
    | nil => simp [dropLit] at h
    | cons c cs =>
      simp only [dropLit] at h
      split at h
      · have := ih cs h; simp only [List.length_cons]; omega
      · simp at h

theorem takeDigits_length (cs : List Char) : (takeDigits cs).2.length ≤ cs.length := by
  induction cs with
  | nil => simp [takeDigits]
  | cons c cs ih =>
    simp only [takeDigits]
    split
    · simp only [List.length_cons]; omega
    · exact Nat.le_refl _

theorem parseInt_length (cs i r : List Char) (h : parseInt cs = some (i, r)) :
    r.length < cs.length := by
  cases cs with
  | nil => simp [parseInt] at h
  | cons c cs =>
    simp only [parseInt] at h
    split at h
    · simp at h; rw [← h.2]; simp
    · split at h
      · simp at h
        have := takeDigits_length cs
        rw [← h.2]; simp only [List.length_cons]; omega
      · simp at h

theorem parseFrac_length (cs f r : List Char) (h : parseFrac cs = some (f, r)) :
    r.length ≤ cs.length := by
  cases cs with
  | nil => simp [parseFrac] at h; rw [← h.2]
  | cons c cs =>
    simp only [parseFrac] at h
    split at h
    · split at h
      · simp at h
      · simp at h
        have := takeDigits_length cs
        rw [← h.2]; simp only [List.length_cons]; omega
    · simp at h; rw [← h.2]

theorem parseExp_length (cs e r : List Char) (h : parseExp cs = some (e, r)) :
    r.length ≤ cs.length := by
  cases cs with
  | nil => simp [parseExp] at h; rw [← h.2]
  | cons c cs =>
    simp only [parseExp] at h
    split at h
    · cases cs with
      | nil => simp at h
      | cons s r1 =>
        simp only at h
        split at h
        · split at h
          · simp at h
          · simp at h
            have := takeDigits_length r1
            rw [← h.2]; simp only [List.length_cons]; omega
        · split at h
          · simp at h
          · simp at h
            have := takeDigits_length (s :: r1)
            rw [← h.2]; simp only [List.length_cons] at this ⊢; omega
    · simp at h; rw [← h.2]

theorem parseNumber_length (cs lit r : List Char) (h : parseNumber cs = some (lit, r)) :
    r.length < cs.length := by
  simp only [parseNumber] at h
  split at h
  · simp at h
  · rename_i i r1 h1
    split at h
    · simp at h
    · rename_i f r2 h2
      split at h
      · simp at h
      · rename_i e r3 h3
        simp at h
        have a1 := parseInt_length _ _ _ h1
        have a2 := parseFrac_length _ _ _ h2
        have a3 := parseExp_length _ _ _ h3
        have a0 : (if cs.head? = some '-' then cs.drop 1 else cs).length ≤ cs.length := by
          split
          · simp
          · exact Nat.le_refl _
        rw [← h.2]; omega

/-- Every successful parsing function consumes input. -/
theorem parse_consumes (n : Nat) :
    (∀ cs v r, parseValue n cs = PR.ok v r → r.length < cs.length) ∧
    (∀ cs vs r, parseArrTail n cs = PR.ok vs r → r.length < cs.length) ∧
    (∀ cs kv r, parseMember n cs = PR.ok kv r → r.length < cs.length) ∧
    (∀ cs acc kvs r, parseObjTail n cs acc = PR.ok kvs r → r.length < cs.length) := by
  induction n with
  | zero => simp [parseValue, parseArrTail, parseMember, parseObjTail]
  | succ n ih =>
    obtain ⟨ihV, ihA, ihM, ihO⟩ := ih
    refine ⟨?_, ?_, ?_, ?_⟩
    · intro cs v r h
      simp only [parseValue] at h
      cases h1 : skipWs cs with
      | nil => simp [h1] at h
      | cons c r0 =>
        have hl := skipWs_eq_cons cs c r0 h1
        simp only [h1] at h
        split_ifs at h with hq hb hc ht hf hn
        · cases h2 : parseStringBody r0 with
          | none => simp [h2] at h
          | some pr =>
            obtain ⟨s, r1⟩ := pr
            simp only [h2, PR.ok.injEq] at h
            have := parseStringBody_length _ _ _ h2
            obtain ⟨_, rfl⟩ := h
            omega
        · cases h2 : skipWs r0 with
          | nil => simp [h2] at h
          | cons c1 r1 =>
            have hl2 := skipWs_eq_cons r0 c1 r1 h2
            simp only [h2] at h
            split_ifs at h with hc1
            · simp only [PR.ok.injEq] at h
              obtain ⟨_, rfl⟩ := h
              omega
            · cases h3 : parseValue n (c1 :: r1) with
              | bad => simp [h3] at h
              | fuel => simp [h3] at h
              | ok v1 r2 =>
                have l3 := ihV _ _ _ h3
                simp only [h3] at h
                cases h4 : parseArrTail n r2 with
                | bad => simp [h4] at h
                | fuel => simp [h4] at h
                | ok vs r3 =>
                  have l4 := ihA _ _ _ h4
                  simp only [h4, PR.ok.injEq] at h
                  obtain ⟨_, rfl⟩ := h
                  simp only [List.length_cons] at l3
                  omega
        · cases h2 : skipWs r0 with
          | nil => simp [h2] at h
          | cons c1 r1 =>
            have hl2 := skipWs_eq_cons r0 c1 r1 h2
            simp only [h2] at h
            split_ifs at h with hc1
            · simp only [PR.ok.injEq] at h
              obtain ⟨_, rfl⟩ := h
              omega
            · cases h3 : parseMember n (c1 :: r1) with
              | bad => simp [h3] at h
              | fuel => simp [h3] at h
              | ok kv r2 =>
                obtain ⟨k, v1⟩ := kv
                have l3 := ihM _ _ _ h3
                simp only [h3] at h
                cases h4 : parseObjTail n r2 (setProp [] k v1) with
                | bad => simp [h4] at h
                | fuel => simp [h4] at h
                | ok kvs r3 =>
                  have l4 := ihO _ _ _ _ h4
                  simp only [h4, PR.ok.injEq] at h
                  obtain ⟨_, rfl⟩ := h
                  simp only [List.length_cons] at l3
                  omega
        · cases h2 : dropLit ['r', 'u', 'e'] r0 with
          | none => simp [h2] at h
          | some r1 =>
            have := dropLit_length _ _ _ h2
            simp only [h2, PR.ok.injEq] at h
            obtain ⟨_, rfl⟩ := h
            omega
        · cases h2 : dropLit ['a', 'l', 's', 'e'] r0 with
          | none => simp [h2] at h
          | some r1 =>
            have := dropLit_length _ _ _ h2
            simp only [h2, PR.ok.injEq] at h
            obtain ⟨_, rfl⟩ := h
            omega
        · cases h2 : dropLit ['u', 'l', 'l'] r0 with
          | none => simp [h2] at h
          | some r1 =>
            have := dropLit_length _ _ _ h2
            simp only [h2, PR.ok.injEq] at h
            obtain ⟨_, rfl⟩ := h
            omega
        · cases h2 : parseNumber (c :: r0) with
          | none => simp [h2] at h
          | some pr =>
            obtain ⟨lit, r1⟩ := pr
            have := parseNumber_length _ _ _ h2
            simp only [h2, PR.ok.injEq] at h
            obtain ⟨_, rfl⟩ := h
            simp only [List.length_cons] at this
            omega
    · intro cs vs r h
      simp only [parseArrTail] at h
      cases h1 : skipWs cs with
      | nil => simp [h1] at h
      | cons c r0 =>
        have hl := skipWs_eq_cons cs c r0 h1
        simp only [h1] at h
        split_ifs at h with hb hc
        · simp only [PR.ok.injEq] at h
          obtain ⟨_, rfl⟩ := h
          omega
        · cases h3 : parseValue n r0 with
          | bad => simp [h3] at h
          | fuel => simp [h3] at h
          | ok v1 r2 =>
            have l3 := ihV _ _ _ h3
            simp only [h3] at h
            cases h4 : parseArrTail n r2 with
            | bad => simp [h4] at h
            | fuel => simp [h4] at h
            | ok vs1 r3 =>
              have l4 := ihA _ _ _ h4
              simp only [h4, PR.ok.injEq] at h
              obtain ⟨_, rfl⟩ := h
              omega
    · intro cs kv r h
      simp only [parseMember] at h
      cases h1 : skipWs cs with
      | nil => simp [h1] at h
      | cons c r0 =>
        have hl := skipWs_eq_cons cs c r0 h1
        simp only [h1] at h
        split_ifs at h with hq
        cases h2 : parseStringBody r0 with
        | none => simp [h2] at h
        | some pr =>
          obtain ⟨k, r1⟩ := pr
          have l2 := parseStringBody_length _ _ _ h2
          simp only [h2] at h
          cases h3 : skipWs r1 with
          | nil => simp [h3] at h
          | cons c1 r2 =>
            have hl3 := skipWs_eq_cons r1 c1 r2 h3
            simp only [h3] at h
            split_ifs at h with hcol
            cases h4 : parseValue n r2 with
            | bad => simp [h4] at h
            | fuel => simp [h4] at h
            | ok v1 r3 =>
              have l4 := ihV _ _ _ h4
              simp only [h4, PR.ok.injEq] at h
              obtain ⟨_, rfl⟩ := h
              omega
    · intro cs acc kvs r h
      simp only [parseObjTail] at h
      cases h1 : skipWs cs with
      | nil => simp [h1] at h
      | cons c r0 =>
        have hl := skipWs_eq_cons cs c r0 h1
        simp only [h1] at h
        split_ifs at h with hb hc
        · simp only [PR.ok.injEq] at h
          obtain ⟨_, rfl⟩ := h
          omega
        · cases h3 : parseMember n r0 with
          | bad => simp [h3] at h
          | fuel => simp [h3] at h
          | ok kv r2 =>
            obtain ⟨k, v1⟩ := kv
            have l3 := ihM _ _ _ h3
            simp only [h3] at h
            have l4 := ihO _ _ _ _ h
            omega

/-- With fuel above twice the input length no parsing function runs out of
fuel. -/
theorem parse_fuel (n : Nat) :
    (∀ cs, 2 * cs.length + 1 ≤ n → parseValue n cs ≠ PR.fuel) ∧
    (∀ cs, 2 * cs.length + 1 ≤ n → parseArrTail n cs ≠ PR.fuel) ∧
    (∀ cs, 2 * cs.length + 1 ≤ n → parseMember n cs ≠ PR.fuel) ∧
    (∀ cs acc, 2 * cs.length + 1 ≤ n → parseObjTail n cs acc ≠ PR.fuel) := by
  induction n with
  | zero => exact ⟨fun _ h => by omega, fun _ h => by omega, fun _ h => by omega,
      fun _ _ h => by omega⟩
  | succ n ih =>
    obtain ⟨ihV, ihA, ihM, ihO⟩ := ih
    refine ⟨?_, ?_, ?_, ?_⟩
    · intro cs hn h
      simp only [parseValue] at h
      cases h1 : skipWs cs with
      | nil => simp [h1] at h
      | cons c r0 =>
        have hl := skipWs_eq_cons cs c r0 h1
        simp only [h1] at h
        split_ifs at h with hq hb hc ht hf hn
        · cases h2 : parseStringBody r0 with
          | none => simp [h2] at h
          | some pr => simp [h2] at h
        · cases h2 : skipWs r0 with
          | nil => simp [h2] at h
          | cons c1 r1 =>
            have hl2 := skipWs_eq_cons r0 c1 r1 h2
            simp only [h2] at h
            split_ifs at h with hc1
            cases h3 : parseValue n (c1 :: r1) with
            | bad => simp [h3] at h
            | fuel => exact ihV _ (by simp only [List.length_cons]; omega) h3
            | ok v1 r2 =>
              have l3 := (parse_consumes n).1 _ _ _ h3
              simp only [List.length_cons] at l3
              simp only [h3] at h
              cases h4 : parseArrTail n r2 with
              | bad => simp [h4] at h
              | fuel => exact ihA _ (by omega) h4
              | ok vs r3 => simp [h4] at h
        · cases h2 : skipWs r0 with
          | nil => simp [h2] at h
          | cons c1 r1 =>
            have hl2 := skipWs_eq_cons r0 c1 r1 h2
            simp only [h2] at h
            split_ifs at h with hc1
            cases h3 : parseMember n (c1 :: r1) with
            | bad => simp [h3] at h
            | fuel => exact ihM _ (by simp only [List.length_cons]; omega) h3
            | ok kv r2 =>
              obtain ⟨k, v1⟩ := kv
              have l3 := (parse_consumes n).2.2.1 _ _ _ h3
              simp only [List.length_cons] at l3
              simp only [h3] at h
              cases h4 : parseObjTail n r2 (setProp [] k v1) with
              | bad => simp [h4] at h
              | fuel => exact ihO _ _ (by omega) h4
              | ok kvs r3 => simp [h4] at h
        · cases h2 : dropLit ['r', 'u', 'e'] r0 <;> simp [h2] at h
        · cases h2 : dropLit ['a', 'l', 's', 'e'] r0 <;> simp [h2] at h
        · cases h2 : dropLit ['u', 'l', 'l'] r0 <;> simp [h2] at h
        · cases h2 : parseNumber (c :: r0) <;> simp [h2] at h
    · intro cs hn h
      simp only [parseArrTail] at h
      cases h1 : skipWs cs with
      | nil => simp [h1] at h
      | cons c r0 =>
        have hl := skipWs_eq_cons cs c r0 h1
        simp only [h1] at h
        split_ifs at h with hb hc
        cases h3 : parseValue n r0 with
        | bad => simp [h3] at h
        | fuel => exact ihV _ (by omega) h3
        | ok v1 r2 =>
          have l3 := (parse_consumes n).1 _ _ _ h3
          simp only [h3] at h
          cases h4 : parseArrTail n r2 with
          | bad => simp [h4] at h
          | fuel => exact ihA _ (by omega) h4
          | ok vs1 r3 => simp [h4] at h
    · intro cs hn h
      simp only [parseMember] at h
      cases h1 : skipWs cs with
      | nil => simp [h1] at h
      | cons c r0 =>
        have hl := skipWs_eq_cons cs c r0 h1
        simp only [h1] at h
        split_ifs at h with hq
        cases h2 : parseStringBody r0 with
        | none => simp [h2] at h
        | some pr =>
          obtain ⟨k, r1⟩ := pr
          have l2 := parseStringBody_length _ _ _ h2
          simp only [h2] at h
          cases h3 : skipWs r1 with
          | nil => simp [h3] at h
          | cons c1 r2 =>
            have hl3 := skipWs_eq_cons r1 c1 r2 h3
            simp only [h3] at h
            split_ifs at h with hcol
            cases h4 : parseValue n r2 with
            | bad => simp [h4] at h
            | fuel => exact ihV _ (by omega) h4
            | ok v1 r3 => simp [h4] at h
    · intro cs acc hn h
      simp only [parseObjTail] at h
      cases h1 : skipWs cs with
      | nil => simp [h1] at h
      | cons c r0 =>
        have hl := skipWs_eq_cons cs c r0 h1
        simp only [h1] at h
        split_ifs at h with hb hc
        cases h3 : parseMember n r0 with
        | bad => simp [h3] at h
        | fuel => exact ihM _ (by omega) h3
        | ok kv r2 =>
          obtain ⟨k, v1⟩ := kv
          have l3 := (parse_consumes n).2.2.1 _ _ _ h3
          simp only [h3] at h
          exact ihO _ _ (by omega) h

/-- The fuel of `jsonParseChars` is never exhausted: `JSON.parse` either returns
a value or reports a syntax error. -/
theorem jsonParse_fuel (cs : List Char) : jsonParseChars cs ≠ PR.fuel := by
  unfold jsonParseChars
  cases h : parseValue (2 * cs.length + 2) cs with
  | ok v rest => simp only; split <;> simp
  | bad => simp
  | fuel => exact absurd h ((parse_fuel _).1 cs (by omega))

/-! ## Lemmas: handlers on lists of the data model -/

theorem loadTasks_storage (p : Page) : (loadTasks p).state.storage = p.storage := by
  unfold loadTasks
  split
  · rfl
  · split <;> rfl

theorem loadNotes_storage (p : Page) : (loadNotes p).state.storage = p.storage := by
  unfold loadNotes
  split
  · rfl
  · split <;> rfl

/-- The flag flip of the data model. -/
theorem toggleCompleted_task (t : Task) :
    toggleCompleted t.toJs = .ok (Task.toJs { t with completed := !t.completed }) := by
  cases t with
  | mk text completed =>
    simp [toggleCompleted, Task.toJs, setProp, lookupProp, List.find?, JVal.truthy]

theorem getD_map_toJs (ts : List Task) (i : Nat) (h : i < ts.length) :
    (ts.map Task.toJs).getD i .undefined = (ts.get ⟨i, h⟩).toJs := by
  induction ts generalizing i with
  | nil => simp at h
  | cons t ts ih =>
    cases i with
    | zero => simp
    | succ j => simpa using ih j (by simpa using h)

theorem getD_map_toJs_none (ts : List Task) (i : Nat) (h : ts.length ≤ i) :
    (ts.map Task.toJs).getD i .undefined = .undefined := by
  induction ts generalizing i with
  | nil => simp
  | cons t ts ih =>
    cases i with
    | zero => simp at h
    | succ j => simpa using ih j (by simpa using h)

theorem set_map_toJs (ts : List Task) (i : Nat) (h : i < ts.length) :
    (ts.map Task.toJs).set i (Task.toJs { ts.get ⟨i, h⟩ with completed := !(ts.get ⟨i, h⟩).completed })
      = (ts.modify (fun t => { t with completed := !t.completed }) i).map Task.toJs := by
  induction ts generalizing i with
  | nil => simp at h
  | cons t ts ih =>
    cases i with
    | zero => simp [List.modify]
    | succ j => simpa [List.modify] using ih j (by simpa using h)

theorem modify_of_le (ts : List Task) (f : Task → Task) (i : Nat) (h : ts.length ≤ i) :
    ts.modify f i = ts := by
  induction ts generalizing i with
  | nil => cases i <;> simp [List.modify]
  | cons t ts ih =>
    cases i with
    | zero => simp at h
    | succ j => simpa [List.modify] using ih j (by simpa using h)

theorem eraseIdx_map_toJs (ts : List Task) (i : Nat) :
    (ts.map Task.toJs).eraseIdx i = (ts.eraseIdx i).map Task.toJs := by
  induction ts generalizing i with
  | nil => simp
  | cons t ts ih =>
    cases i with
    | zero => simp
    | succ j => simpa using ih j

theorem toggleAt_tasks (ts : List Task) (i : Nat) (h : i < ts.length) :
    toggleAt (.arr (ts.map Task.toJs)) i
      = .ok (.arr ((ts.modify (fun t => { t with completed := !t.completed }) i).map Task.toJs)) := by
  simp only [toggleAt, getD_map_toJs ts i h, toggleCompleted_task, set_map_toJs ts i h]

theorem toggleAt_tasks_out (ts : List Task) (i : Nat) (h : ts.length ≤ i) :
    toggleAt (.arr (ts.map Task.toJs)) i = .error .typeError := by
  simp only [toggleAt, getD_map_toJs_none ts i h, toggleCompleted]

/-- Storage after a handler has written the task list `ts1` and re-rendered. -/
theorem persists_after_write (p : Page) (ts1 : List Task) (inp : String) :
    PersistsTasks (loadTasks { p with
      storage := p.storage.setItem "tasks" (jsonStringify (.arr (ts1.map Task.toJs))),
      todoInput := inp }).state.storage ts1 := by
  rw [loadTasks_storage]
  exact readList_setItem _ _ _ (plain_tasks ts1)

theorem addTask_blank (p : Page) (h : jsTrim p.todoInput = "") : addTask p = ⟨p, none⟩ := by
  simp [addTask, h]

theorem addTask_persists (p : Page) (ts : List Task) (h : PersistsTasks p.storage ts)
    (hne : jsTrim p.todoInput ≠ "") :
    PersistsTasks (addTask p).state.storage (ts ++ [⟨jsTrim p.todoInput, false⟩]) := by
  unfold PersistsTasks at h
  have e : JVal.arr (ts.map Task.toJs ++
      [.obj [("text", .str (jsTrim p.todoInput)), ("completed", .bool false)]])
      = JVal.arr ((ts ++ [(⟨jsTrim p.todoInput, false⟩ : Task)]).map Task.toJs) := by
    simp [Task.toJs]
  simp only [addTask, hne, if_false, h, e]
  exact persists_after_write p _ ""

theorem toggleTask_persists (p : Page) (ts : List Task) (h : PersistsTasks p.storage ts)
    (i : Nat) (hi : i < ts.length) :
    PersistsTasks (toggleTask i p).state.storage
      (ts.modify (fun t => { t with completed := !t.completed }) i) := by
  unfold PersistsTasks at h
  simp only [toggleTask, h, toggleAt_tasks ts i hi]
  exact persists_after_write p _ p.todoInput

theorem toggleTask_out (p : Page) (ts : List Task) (h : PersistsTasks p.storage ts)
    (i : Nat) (hi : ts.length ≤ i) : toggleTask i p = ⟨p, some .typeError⟩ := by
  unfold PersistsTasks at h
  simp only [toggleTask, h, toggleAt_tasks_out ts i hi]

theorem deleteTask_persists (p : Page) (ts : List Task) (h : PersistsTasks p.storage ts)
    (i : Nat) : PersistsTasks (deleteTask i p).state.storage (ts.eraseIdx i) := by
  unfold PersistsTasks at h
  simp only [deleteTask, h, spliceAt, eraseIdx_map_toJs]
  exact persists_after_write p _ p.todoInput

theorem applyOp_persists (p : Page) (ts : List Task) (h : PersistsTasks p.storage ts)
    (op : TaskOp) : PersistsTasks (applyOp p op).storage (simOp ts op) := by
  cases op with
  | add input =>
    simp only [applyOp, simOp]
    by_cases hb : jsTrim input = ""
    · rw [addTask_blank _ hb]
      simp only [hb, if_true]
      exact h
    · simpa [hb] using addTask_persists { p with todoInput := input } ts h hb
  | toggle i =>
    simp only [applyOp, simOp]
    by_cases hi : i < ts.length
    · exact toggleTask_persists p ts h i hi
    · rw [toggleTask_out p ts h i (by omega), modify_of_le ts _ i (by omega)]
      exact h
  | delete i => exact deleteTask_persists p ts h i

/-! ## Storage loaders (C1) -/

theorem jsonParse_null : jsonParse "null" = .ok .null := rfl

theorem readList_absent (st : Storage) (key : String) (h : st.getItem key = none) :
    readList st key = .ok (.arr []) := by
  simp [readList, h, jsonParse_null, JVal.or, JVal.truthy]

theorem readList_malformed (st : Storage) (key s : String) (h : st.getItem key = some s)
    (hs : jsonParse s = .error .jsonError) : readList st key = .error .jsonError := by
  simp [readList, h, hs]

/-- C1 (as amended): for each of the keys `tasks`, `notes` and `events`, when
the key is absent the loader does not throw and works on the empty list; when
the stored string is not valid JSON the loader throws the `SyntaxError` of
`JSON.parse` and leaves the page as it was (nothing is rendered, nothing is
written), and `initCalendar` builds no calendar. -/
theorem loaders_absent_or_malformed (p : Page) (lib : WidgetLib) :
    (p.storage.getItem "tasks" = none → loadTasks p = ⟨{ p with todoList := [] }, none⟩) ∧
    (∀ s, p.storage.getItem "tasks" = some s → jsonParse s = .error .jsonError →
      loadTasks p = ⟨p, some .jsonError⟩) ∧
    (p.storage.getItem "notes" = none → loadNotes p = ⟨{ p with notesContainer := [] }, none⟩) ∧
    (∀ s, p.storage.getItem "notes" = some s → jsonParse s = .error .jsonError →
      loadNotes p = ⟨p, some .jsonError⟩) ∧
    (p.storage.getItem "events" = none →
      parsedEvents p.storage = .ok [] ∧
      ∃ c, initCalendar lib p.storage = .ok c ∧ c.savedEvents = [] ∧ c.events = []) ∧
    (∀ s, p.storage.getItem "events" = some s → jsonParse s = .error .jsonError →
      parsedEvents p.storage = .error .jsonError ∧
      initCalendar lib p.storage = .error .jsonError) := by
  refine ⟨fun h => ?_, fun s h hs => ?_, fun h => ?_, fun s h hs => ?_, fun h => ?_,
    fun s h hs => ?_⟩
  · simp [loadTasks, readList_absent _ _ h, renderTasks]
  · simp [loadTasks, readList_malformed _ _ s h hs]
  · simp [loadNotes, readList_absent _ _ h, renderNotes]
  · simp [loadNotes, readList_malformed _ _ s h hs]
  · simp [parsedEvents, initCalendar, readList_absent _ _ h, mapEvents]
  · simp [parsedEvents, initCalendar, readList_malformed _ _ s h hs]

/-- C1, witness: an empty storage area and one holding the text `[1,` under
each key. -/
theorem loaders_absent_or_malformed_witness :
    loadTasks blankPage = ⟨{ blankPage with todoList := [] }, none⟩ ∧
    loadTasks { blankPage with storage := Storage.empty.setItem "tasks" "[1," }
      = ⟨{ blankPage with storage := Storage.empty.setItem "tasks" "[1," }, some .jsonError⟩ :=
  ⟨(loaders_absent_or_malformed blankPage sampleWidget).1 rfl,
    (loaders_absent_or_malformed
      { blankPage with storage := Storage.empty.setItem "tasks" "[1," } sampleWidget).2.1
      "[1," rfl rfl⟩

/-- C1, counterexample to the claim as stated: with a string that is not valid
JSON under the key, `loadTasks`, `loadNotes` and the event load of
`initCalendar` each throw, whereas with the key absent they do not. -/
theorem malformed_json_throws :
    (loadTasks { blankPage with storage := Storage.empty.setItem "tasks" "\x7b" }).threw
      = some .jsonError ∧
    (loadTasks blankPage).threw = none ∧
    (loadNotes { blankPage with storage := Storage.empty.setItem "notes" "not json" }).threw
      = some .jsonError ∧
    (loadNotes blankPage).threw = none ∧
    parsedEvents (Storage.empty.setItem "events" "[1,") = .error .jsonError ∧
    parsedEvents Storage.empty = .ok [] := by
  refine ⟨rfl, rfl, rfl, rfl, rfl, rfl⟩

/-! ## Task list and notes pad (C2, C3, C4, C9, C10) -/

theorem modify_toggle_twice (ts : List Task) (i : Nat) :
    (ts.modify (fun t => { t with completed := !t.completed }) i).modify
      (fun t => { t with completed := !t.completed }) i = ts := by
  induction ts generalizing i with
  | nil => cases i <;> simp [List.modify]
  | cons t ts ih =>
    cases i with
    | zero => cases t; simp [List.modify]
    | succ j => simpa [List.modify] using ih j

theorem set_map_str (ns : List String) (i : Nat) (v : String) :
    (ns.map JVal.str).set i (.str v) = (ns.set i v).map JVal.str := by
  induction ns generalizing i with
  | nil => simp
  | cons n ns ih =>
    cases i with
    | zero => simp
    | succ j => simp only [List.map_cons, List.set_cons_succ, ih j]

theorem addNote_persists (p : Page) (ns : List String) (h : PersistsNotes p.storage ns) :
    PersistsNotes (addNote p).state.storage (ns ++ [""]) := by
  unfold PersistsNotes at h
  have e : JVal.arr (ns.map JVal.str ++ [.str ""]) = JVal.arr ((ns ++ [""]).map JVal.str) := by
    simp
  simp only [addNote, h, e, loadNotes_storage]
  exact readList_setItem _ _ _ (plain_notes _)

theorem updateNote_persists (p : Page) (ns : List String) (h : PersistsNotes p.storage ns)
    (i : Nat) (hi : i < ns.length) (v : String) :
    PersistsNotes (updateNote i v p).state.storage (ns.set i v) := by
  unfold PersistsNotes at h
  simp only [updateNote, h, assignIndex, List.length_map, hi, if_true, set_map_str]
  exact readList_setItem _ _ _ (plain_notes _)

theorem loadNotes_of_persists (p : Page) (ns : List String) (h : PersistsNotes p.storage ns) :
    loadNotes p = ⟨{ p with notesContainer := renderNotes (ns.map JVal.str) 0 }, none⟩ := by
  unfold PersistsNotes at h
  simp only [loadNotes, h]

/-- C9: for every persisted task list and every input value, `addTask` leaves
the persisted list (and the whole page) unchanged when the input is empty after
trimming, and otherwise persists the previous list with exactly one task
appended at the end, whose text is the trimmed input and whose `completed`
flag is false. -/
theorem addTask_appends_trimmed (p : Page) (ts : List Task)
    (h : PersistsTasks p.storage ts) :
    (jsTrim p.todoInput = "" →
      addTask p = ⟨p, none⟩ ∧ PersistsTasks (addTask p).state.storage ts) ∧
    (jsTrim p.todoInput ≠ "" →
      PersistsTasks (addTask p).state.storage (ts ++ [⟨jsTrim p.todoInput, false⟩])) := by
  refine ⟨fun hb => ?_, fun hne => addTask_persists p ts h hne⟩
  rw [addTask_blank p hb]
  exact ⟨rfl, h⟩

/-- C10: for an index below the length of the persisted task list,
`toggleTask` keeps the length, changes only the `completed` flag of the task at
that index, and applied twice restores the persisted list; for an index at or
beyond the length it throws before writing and leaves the page, hence the
persisted list, unchanged. -/
theorem toggleTask_frame (p : Page) (ts : List Task) (h : PersistsTasks p.storage ts)
    (i : Nat) :
    (i < ts.length →
      ∃ ts1, PersistsTasks (toggleTask i p).state.storage ts1 ∧
        ts1.length = ts.length ∧
        (∀ j, j ≠ i → ts1[j]? = ts[j]?) ∧
        (∀ t, ts[i]? = some t → ts1[i]? = some ⟨t.text, !t.completed⟩) ∧
        PersistsTasks (toggleTask i (toggleTask i p).state).state.storage ts) ∧
    (ts.length ≤ i → toggleTask i p = ⟨p, some .typeError⟩) := by
  refine ⟨fun hi => ?_, fun hi => toggleTask_out p ts h i hi⟩
  have h1 := toggleTask_persists p ts h i hi
  refine ⟨_, h1, by simp, ?_, ?_, ?_⟩
  · intro j hj
    exact List.getElem?_modify_ne _ _ (Ne.symm hj)
  · intro t ht
    simp [List.getElem?_modify_eq, ht]
  · have h2 := toggleTask_persists (toggleTask i p).state _ h1 i (by simpa using hi)
    rwa [modify_toggle_twice] at h2

/-- C3: on a persisted task list of length `n` and an index `i` with
`i + 1 < n`, `deleteTask i` followed by `toggleTask i` leaves a list of length
`n - 1` in which the task originally at `i + 1` sits at `i` with its flag
negated, every task before `i` is unchanged at its index, and every task
originally at `j > i + 1` sits unchanged at `j - 1`. -/
theorem delete_then_toggle_hits_next (p : Page) (ts : List Task)
    (h : PersistsTasks p.storage ts) (i : Nat) (hi : i + 1 < ts.length) :
    ∃ ts1, PersistsTasks (toggleTask i (deleteTask i p).state).state.storage ts1 ∧
      ts1.length = ts.length - 1 ∧
      (∀ t, ts[i + 1]? = some t → ts1[i]? = some ⟨t.text, !t.completed⟩) ∧
      (∀ j, j < i → ts1[j]? = ts[j]?) ∧
      (∀ j, i + 1 < j → ts1[j - 1]? = ts[j]?) := by
  have h1 := deleteTask_persists p ts h i
  have hlen : (ts.eraseIdx i).length = ts.length - 1 := List.length_eraseIdx_of_lt (by omega)
  have h2 := toggleTask_persists (deleteTask i p).state _ h1 i (by omega)
  refine ⟨_, h2, by simp [hlen], ?_, ?_, ?_⟩
  · intro t ht
    simp [List.getElem?_modify_eq, List.getElem?_eraseIdx_of_ge ts i i (Nat.le_refl i), ht]
  · intro j hj
    rw [List.getElem?_modify_ne _ _ (by omega), List.getElem?_eraseIdx_of_lt ts i j hj]
  · intro j hj
    rw [List.getElem?_modify_ne _ _ (by omega), List.getElem?_eraseIdx_of_ge ts i (j - 1) (by omega)]
    congr 1
    omega

/-- C2: for every initial persisted task list and every finite sequence of
`addTask`, `toggleTask` and `deleteTask` operations, the task list persisted
under `tasks` after the sequence is the list the in-memory simulation yields
for the same operations in the same order (same length, same content). -/
theorem runOps_matches_simulation (ops : List TaskOp) (p : Page) (ts : List Task)
    (h : PersistsTasks p.storage ts) :
    PersistsTasks (runOps p ops).storage (simOps ts ops) := by
  induction ops generalizing p ts with
  | nil => exact h
  | cons op ops ih => exact ih (applyOp p op) (simOp ts op) (applyOp_persists p ts h op)

/-- C4: for every persisted notes list `ns` and every string `v`, `addNote`
puts the new (empty) note at index `k = ns.length`, and after
`updateNote k v` a reload as `loadNotes` performs it finds `v` at index `k`,
every earlier note unchanged and `k + 1` notes in all. -/
theorem note_add_update_reload (p : Page) (ns : List String) (v : String)
    (h : PersistsNotes p.storage ns) :
    PersistsNotes (addNote p).state.storage (ns ++ [""]) ∧
    PersistsNotes (updateNote ns.length v (addNote p).state).state.storage (ns ++ [v]) ∧
    (loadNotes (updateNote ns.length v (addNote p).state).state).threw = none ∧
    (loadNotes (updateNote ns.length v (addNote p).state).state).state.notesContainer
      = renderNotes ((ns ++ [v]).map JVal.str) 0 ∧
    (ns ++ [v])[ns.length]? = some v ∧
    (∀ j, j < ns.length → (ns ++ [v])[j]? = ns[j]?) ∧
    (ns ++ [v]).length = ns.length + 1 := by
  have h1 := addNote_persists p ns h
  have h2 := updateNote_persists (addNote p).state (ns ++ [""]) h1 ns.length (by simp) v
  have e : (ns ++ [""]).set ns.length v = ns ++ [v] := by simp
  rw [e] at h2
  refine ⟨h1, h2, ?_, ?_, by simp, ?_, by simp⟩
  · rw [loadNotes_of_persists _ _ h2]
  · rw [loadNotes_of_persists _ _ h2]
  · intro j hj
    exact List.getElem?_append_left hj

/-! ## Calendar adapter (C5, C6) and chat (C7) -/

theorem mapEvents_objs (recs : List (List (String × JVal))) :
    mapEvents (recs.map JVal.obj) = .ok ((recs.map (fun r =>
      [("title", lookupProp r "title"), ("start", lookupProp r "start"),
        ("end", (lookupProp r "end").or .null)])).map JVal.obj) := by
  induction recs with
  | nil => rfl
  | cons r recs ih => simp [mapEvents, parseEvent, JVal.getProp, ih]

theorem lookupProp_cons_self (k : String) (v : JVal) (rest : List (String × JVal)) :
    lookupProp ((k, v) :: rest) k = v := by
  simp [lookupProp, List.find?]

theorem lookupProp_cons_ne (k1 k : String) (v : JVal) (rest : List (String × JVal))
    (h : k1 ≠ k) : lookupProp ((k1, v) :: rest) k = lookupProp rest k := by
  simp [lookupProp, List.find?, h]

/-- The list `initCalendar` hands to the widget is the constant
`parsedEvents`. -/
theorem initCalendar_initialEvents (lib : WidgetLib) (st : Storage) (c : Calendar)
    (h : initCalendar lib st = .ok c) : parsedEvents st = .ok c.initialEvents := by
  unfold initCalendar at h
  unfold parsedEvents
  cases hr : readList st "events" with
  | error e => simp [hr] at h
  | ok saved =>
    cases saved with
    | arr xs =>
      simp only [hr] at h ⊢
      cases hm : mapEvents xs with
      | error e => simp [hm] at h
      | ok inputs =>
        simp only [hm, Except.ok.injEq] at h
        rw [← h]
    | _ => simp [hr] at h

theorem or_null_truthy (x : JVal) (h : x.truthy = true) : x.or .null = x := by
  unfold JVal.or
  rw [if_pos h]

theorem or_null_falsy (x : JVal) (h : x.truthy = false) : x.or .null = .null := by
  unfold JVal.or
  rw [if_neg (by simp [h])]

/-- C5 (as amended): for every stored event list (an array of event objects),
`initCalendar` hands the widget, as its `events` option, a list of the same
length and order in which each entry has the same title and start as the
stored record at that position, has as its end the stored record's end when
that is truthy and `null` otherwise (an absent, `null`, empty or otherwise
falsy end becomes `null`), and has exactly the three fields `title`, `start`,
`end`: every custom field of the stored record is dropped.  The widget's
events are built from that list alone. -/
theorem initCalendar_hands_title_start_end (lib : WidgetLib) (st : Storage)
    (recs : List (List (String × JVal)))
    (h : readList st "events" = .ok (.arr (recs.map JVal.obj))) :
    ∃ (c : Calendar) (out : List (List (String × JVal))),
      initCalendar lib st = .ok c ∧ c.initialEvents = out.map JVal.obj ∧
      c.events = (out.map JVal.obj).filterMap lib.ingest ∧
      out.length = recs.length ∧
      ∀ (i : Nat) (r : List (String × JVal)), recs[i]? = some r → ∃ e, out[i]? = some e ∧
        e.map Prod.fst = ["title", "start", "end"] ∧
        lookupProp e "title" = lookupProp r "title" ∧
        lookupProp e "start" = lookupProp r "start" ∧
        ((lookupProp r "end").truthy = true → lookupProp e "end" = lookupProp r "end") ∧
        ((lookupProp r "end").truthy = false → lookupProp e "end" = .null) := by
  have hinit : initCalendar lib st = .ok
      ⟨st, recs.map JVal.obj,
        (recs.map (fun r =>
          [("title", lookupProp r "title"), ("start", lookupProp r "start"),
            ("end", (lookupProp r "end").or .null)])).map JVal.obj,
        ((recs.map (fun r =>
          [("title", lookupProp r "title"), ("start", lookupProp r "start"),
            ("end", (lookupProp r "end").or .null)])).map JVal.obj).filterMap lib.ingest,
        "", ""⟩ := by
    simp only [initCalendar, h, mapEvents_objs]
  refine ⟨_, recs.map (fun r =>
      [("title", lookupProp r "title"), ("start", lookupProp r "start"),
        ("end", (lookupProp r "end").or .null)]), hinit, rfl, rfl, by simp, ?_⟩
  intro i r hr
  refine ⟨[("title", lookupProp r "title"), ("start", lookupProp r "start"),
      ("end", (lookupProp r "end").or .null)], by simp [hr], rfl, ?_, ?_, ?_, ?_⟩
  · rw [lookupProp_cons_self]
  · rw [lookupProp_cons_ne _ _ _ _ (by decide), lookupProp_cons_self]
  · intro ht
    rw [lookupProp_cons_ne _ _ _ _ (by decide), lookupProp_cons_ne _ _ _ _ (by decide),
      lookupProp_cons_self, or_null_truthy _ ht]
  · intro hf
    rw [lookupProp_cons_ne _ _ _ _ (by decide), lookupProp_cons_ne _ _ _ _ (by decide),
      lookupProp_cons_self, or_null_falsy _ hf]

/-- C5, counterexample to the claim as stated: a stored record whose end is
the empty string is handed to the widget with end `null`, and the record the
add-event form writes, which has no end, is handed over with a fourth member
`end: null`; in both cases the end of the entry is not the end of the stored
record. -/
theorem initCalendar_end_not_kept :
    (∃ c, initCalendar sampleWidget
        (Storage.empty.setItem "events"
          "[\x7b\"title\":\"A\",\"start\":\"2024-01-01\",\"end\":\"\"\x7d]") = .ok c ∧
      c.savedEvents = [.obj [("title", .str "A"), ("start", .str "2024-01-01"),
        ("end", .str "")]] ∧
      c.initialEvents = [.obj [("title", .str "A"), ("start", .str "2024-01-01"),
        ("end", .null)]]) ∧
    lookupProp [("title", .str "A"), ("start", .str "2024-01-01"), ("end", .null)] "end"
      ≠ lookupProp [("title", .str "A"), ("start", .str "2024-01-01"), ("end", .str "")] "end" ∧
    (∃ c, initCalendar sampleWidget
        (Storage.empty.setItem "events"
          "[\x7b\"title\":\"B\",\"start\":\"2024-02-02\"\x7d]") = .ok c ∧
      c.savedEvents = [.obj [("title", .str "B"), ("start", .str "2024-02-02")]] ∧
      c.initialEvents = [.obj [("title", .str "B"), ("start", .str "2024-02-02"),
        ("end", .null)]]) ∧
    lookupProp [("title", .str "B"), ("start", .str "2024-02-02"), ("end", .null)] "end"
      ≠ lookupProp [("title", .str "B"), ("start", .str "2024-02-02")] "end" := by
  refine ⟨⟨_, rfl, rfl, rfl⟩, ?_, ⟨_, rfl, rfl, rfl⟩, ?_⟩
  · show JVal.null ≠ JVal.str ""
    intro h
    cases h
  · show JVal.null ≠ JVal.undefined
    intro h
    cases h

/-- The value a manual add leaves under `events` is the serialised mirror
`savedEvents` plus the new record, whatever the widget holds. -/
theorem addEventClick_writes_mirror (lib : WidgetLib) (c : Calendar)
    (ht : jsTrim c.eventTitle ≠ "") (hd : c.eventDate ≠ "") :
    (addEventClick lib c).storage.getItem "events"
      = some (jsonStringify (.arr (c.savedEvents ++
          [.obj [("title", .str (jsTrim c.eventTitle)), ("start", .str c.eventDate)]]))) := by
  have hs : (calendarAddEvent lib (.obj [("title", .str (jsTrim c.eventTitle)),
      ("start", .str c.eventDate)]) c).savedEvents = c.savedEvents := by
    unfold calendarAddEvent
    split <;> rfl
  simp [addEventClick, ht, hd, hs, Storage.setItem, Storage.getItem]

/-- C6, the code at the failing input: the calendar starts from one stored
event A on 2024-01-01; the user drags A to 2024-01-05 in the widget
(`eventChange` stores the moved event), then adds B through the form.  The
callback fired by `calendar.addEvent` stores the widget's two events; the
handler's own write then replaces that value with the mirror `savedEvents`, in
which A still has the date it had at page load.  The value left under `events`
is not the widget's event set, and the two writes differ. -/
theorem manual_add_overwrites_widget_edit :
    ∃ c0, initCalendar sampleWidget
        (Storage.empty.setItem "events" "[\x7b\"title\":\"A\",\"start\":\"2024-01-01\"\x7d]")
        = .ok c0 ∧
      (calStep sampleWidget c0
          (.widgetChange 0 ⟨"A", "2024-01-05T00:00:00.000Z", none⟩)).storage.getItem "events"
        = some "[\x7b\"title\":\"A\",\"start\":\"2024-01-05T00:00:00.000Z\",\"end\":null\x7d]" ∧
      (calendarAddEvent sampleWidget
          (.obj [("title", .str "B"), ("start", .str "2024-02-02")])
          (calStep sampleWidget c0
            (.widgetChange 0 ⟨"A", "2024-01-05T00:00:00.000Z", none⟩))).storage.getItem "events"
        = some ("[\x7b\"title\":\"A\",\"start\":\"2024-01-05T00:00:00.000Z\",\"end\":null\x7d," ++
            "\x7b\"title\":\"B\",\"start\":\"2024-02-02T00:00:00.000Z\",\"end\":null\x7d]") ∧
      (calRun sampleWidget c0
          [.widgetChange 0 ⟨"A", "2024-01-05T00:00:00.000Z", none⟩,
            .manualAdd "B" "2024-02-02"]).events.map (fun e => (e.title, e.start))
        = [("A", "2024-01-05T00:00:00.000Z"), ("B", "2024-02-02T00:00:00.000Z")] ∧
      (calRun sampleWidget c0
          [.widgetChange 0 ⟨"A", "2024-01-05T00:00:00.000Z", none⟩,
            .manualAdd "B" "2024-02-02"]).storage.getItem "events"
        = some ("[\x7b\"title\":\"A\",\"start\":\"2024-01-01\"\x7d," ++
            "\x7b\"title\":\"B\",\"start\":\"2024-02-02\"\x7d]") ∧
      (calRun sampleWidget c0
          [.widgetChange 0 ⟨"A", "2024-01-05T00:00:00.000Z", none⟩,
            .manualAdd "B" "2024-02-02"]).storage.getItem "events"
        ≠ some (jsonStringify (.arr ((calRun sampleWidget c0
            [.widgetChange 0 ⟨"A", "2024-01-05T00:00:00.000Z", none⟩,
              .manualAdd "B" "2024-02-02"]).events.map storedRecord))) :=
  ⟨_, rfl, rfl, rfl, rfl, rfl, by decide⟩

/-- C7 (as amended): for every non-blank message text, submitting the chat
form with an empty name field adds a document whose name is the empty string
and whose text is the trimmed message, and rendering any snapshot that contains
that document produces for it the line `익명: ` followed by the message
text. -/
theorem chat_empty_name_renders_default (chatMessage : String)
    (h : jsTrim chatMessage ≠ "") :
    chatSubmit "" chatMessage = some ⟨"", jsTrim chatMessage⟩ ∧
    ∀ snapshot : List ChatMessage, (⟨"", jsTrim chatMessage⟩ : ChatMessage) ∈ snapshot →
      ("익명: " ++ jsTrim chatMessage) ∈ renderSnapshot snapshot := by
  refine ⟨?_, fun snapshot hm => ?_⟩
  · have e : jsTrim "" = "" := rfl
    simp [chatSubmit, h, e]
  · exact List.mem_map.2 ⟨_, hm, by simp [renderMessage]⟩

/-- C7, witness: the message ` hi ` sent with an empty name. -/
theorem chat_empty_name_renders_default_witness :
    chatSubmit "" " hi " = some ⟨"", "hi"⟩ ∧
    "익명: hi" ∈ renderSnapshot [⟨"bob", "yo"⟩, ⟨"", "hi"⟩] :=
  ⟨(chat_empty_name_renders_default " hi " (by decide)).1,
    (chat_empty_name_renders_default " hi " (by decide)).2 [⟨"bob", "yo"⟩, ⟨"", "hi"⟩]
      (by simp; rfl)⟩

/-- C7, counterexample to the claim as stated: the line rendered for the
document that an empty name and the message `hi` produce is `익명: hi`, which
does not begin with `anonymous: `. -/
theorem chat_line_not_anonymous :
    chatSubmit "" "hi" = some ⟨"", "hi"⟩ ∧
    renderSnapshot [⟨"", "hi"⟩] = ["익명: hi"] ∧
    ¬ ("anonymous: ".toList <+: (renderMessage ⟨"", "hi"⟩).toList) := by
  refine ⟨rfl, rfl, by decide⟩

/-! ## Weather panel (C8) -/

theorem roundTenths_nearest (x : JsNumber) (h : 0 < x.den) :
    2 * x.den * roundTenths x ≤ 20 * x.num + x.den ∧
      20 * x.num + x.den < 2 * x.den * (roundTenths x + 1) := by
  unfold roundTenths
  have hpos : 0 < 2 * x.den := by omega
  constructor
  · exact Nat.mul_div_le _ _
  · exact Nat.lt_mul_div_succ _ hpos

theorem repr_digit_length (b : Nat) (h : b < 10) : (Nat.repr b).length = 1 := by
  interval_cases b <;> rfl

theorem weatherHtml_temperature (data : WeatherData) :
    (toFixed1 data.temp ++ "°C").toList <:+: (weatherHtml data).toList := by
  refine ⟨("\n        <img src=\"" ++ ("https://openweathermap.org/img/wn/" ++ data.icon ++
      "@2x.png") ++ "\" alt=\"" ++ data.description ++
      "\" />\n        <div>\n          <p><strong>" ++ data.name ++
      "</strong></p>\n          <p>").toList,
    (" – " ++ data.description ++ "</p>\n        </div>\n      ").toList, ?_⟩
  simp [weatherHtml, String.toList]

theorem weatherHtml_description (data : WeatherData) :
    data.description.toList <:+: (weatherHtml data).toList := by
  refine ⟨("\n        <img src=\"" ++ ("https://openweathermap.org/img/wn/" ++ data.icon ++
      "@2x.png") ++ "\" alt=\"").toList,
    ("\" />\n        <div>\n          <p><strong>" ++ data.name ++
      "</strong></p>\n          <p>" ++ toFixed1 data.temp ++ "°C – " ++
      data.description ++ "</p>\n        </div>\n      ").toList, ?_⟩
  simp [weatherHtml, String.toList]

/-- C8: for every well-formed weather response (and a configured key), the
markup `fetchWeather` builds contains the temperature rounded to exactly one
decimal place (the nearest tenth, printed as integer part, point, one digit)
immediately followed by `°C`, and contains the description; for icon `01d`,
description `clear sky`, temperature `23.456` and name `Haeundae` it contains
`23.5°C` and `clear sky`. -/
theorem fetchWeather_markup (key : String) (data : WeatherData)
    (hk : key ≠ "" ∧ key ≠ "YOUR_OPENWEATHERMAP_API_KEY") (hw : data.WellFormed) :
    (∃ html, fetchWeather key data = some html ∧
      (toFixed1 data.temp ++ "°C").toList <:+: html.toList ∧
      data.description.toList <:+: html.toList) ∧
    (∃ a b : Nat, b < 10 ∧ (Nat.repr b).length = 1 ∧
      toFixed1 data.temp = (if data.temp.neg ∧ data.temp.num ≠ 0 then "-" else "") ++
        Nat.repr a ++ "." ++ Nat.repr b ∧
      2 * data.temp.den * (10 * a + b) ≤ 20 * data.temp.num + data.temp.den ∧
      20 * data.temp.num + data.temp.den < 2 * data.temp.den * (10 * a + b + 1)) ∧
    (∃ html, fetchWeather key sampleWeather = some html ∧
      "23.5°C".toList <:+: html.toList ∧ "clear sky".toList <:+: html.toList) := by
  have hf : ∀ d, fetchWeather key d = some (weatherHtml d) := by
    intro d
    simp [fetchWeather, hk.1, hk.2]
  refine ⟨⟨_, hf data, weatherHtml_temperature data, weatherHtml_description data⟩, ?_,
    ⟨_, hf sampleWeather, weatherHtml_temperature sampleWeather,
      weatherHtml_description sampleWeather⟩⟩
  have hb : roundTenths data.temp % 10 < 10 := Nat.mod_lt _ (by decide)
  have hn := roundTenths_nearest data.temp hw.1
  have hdm : 10 * (roundTenths data.temp / 10) + roundTenths data.temp % 10
      = roundTenths data.temp := Nat.div_add_mod _ _
  refine ⟨roundTenths data.temp / 10, roundTenths data.temp % 10, hb,
    repr_digit_length _ hb, rfl, ?_, ?_⟩
  · rw [hdm]; exact hn.1
  · rw [hdm]; exact hn.2

/-- C8, witness: the example response with a configured key. -/
theorem fetchWeather_markup_witness :
    sampleWeather.WellFormed ∧
    ∃ html, fetchWeather "0123456789abcdef" sampleWeather = some html ∧
      "23.5°C".toList <:+: html.toList ∧ "clear sky".toList <:+: html.toList :=
  ⟨⟨by decide, by decide⟩,
    (fetchWeather_markup "0123456789abcdef" sampleWeather ⟨by decide, by decide⟩
      ⟨by decide, by decide⟩).2.2⟩

/-! ## Worked examples -/

set_option maxRecDepth 8000

/-- C9, witness: the input `  d ` submitted on a page that stores three
tasks. -/
theorem addTask_appends_trimmed_witness :
    PersistsTasks sampleTasksPage.storage sampleTasks ∧
    PersistsTasks (addTask { sampleTasksPage with todoInput := "  d " }).state.storage
      (sampleTasks ++ [⟨"d", false⟩]) :=
  ⟨rfl, (addTask_appends_trimmed { sampleTasksPage with todoInput := "  d " } sampleTasks
    rfl).2 (by decide)⟩

/-- C10, witness: index 1 toggled twice, and index 7 toggled, on a page that
stores three tasks. -/
theorem toggleTask_frame_witness :
    PersistsTasks sampleTasksPage.storage sampleTasks ∧
    PersistsTasks (toggleTask 1 (toggleTask 1 sampleTasksPage).state).state.storage
      sampleTasks ∧
    toggleTask 7 sampleTasksPage = ⟨sampleTasksPage, some .typeError⟩ := by
  refine ⟨rfl, ?_, (toggleTask_frame sampleTasksPage sampleTasks rfl 7).2 (by decide)⟩
  obtain ⟨_, _, _, _, _, h⟩ :=
    (toggleTask_frame sampleTasksPage sampleTasks rfl 1).1 (by decide)
  exact h

/-- C3, witness: index 0 deleted then toggled on a page that stores three
tasks; task `b` now sits at index 0 with its flag negated. -/
theorem delete_then_toggle_hits_next_witness :
    PersistsTasks sampleTasksPage.storage sampleTasks ∧
    ∃ ts1, PersistsTasks (toggleTask 0 (deleteTask 0 sampleTasksPage).state).state.storage ts1 ∧
      ts1.length = 2 ∧ ts1[0]? = some ⟨"b", false⟩ := by
  obtain ⟨ts1, h1, h2, h3, _, _⟩ :=
    delete_then_toggle_hits_next sampleTasksPage sampleTasks rfl 0 (by decide)
  exact ⟨rfl, ts1, h1, h2, h3 ⟨"b", true⟩ rfl⟩

/-- C2, witness: five operations, one of them a blank add and one a toggle
past the end, on a page that stores three tasks. -/
theorem runOps_matches_simulation_witness :
    PersistsTasks sampleTasksPage.storage sampleTasks ∧
    PersistsTasks
      (runOps sampleTasksPage [.add " d ", .toggle 0, .delete 1, .toggle 9, .add "  "]).storage
      [⟨"a", true⟩, ⟨"c", false⟩, ⟨"d", false⟩] :=
  ⟨rfl, runOps_matches_simulation [.add " d ", .toggle 0, .delete 1, .toggle 9, .add "  "]
    sampleTasksPage sampleTasks rfl⟩

/-- C4, witness: a note added to a page that stores one note, then updated
with a text that needs escaping. -/
theorem note_add_update_reload_witness :
    PersistsNotes sampleNotesPage.storage ["x"] ∧
    PersistsNotes
      (updateNote 1 "line1\nline2 \"q\"" (addNote sampleNotesPage).state).state.storage
      ["x", "line1\nline2 \"q\""] :=
  ⟨rfl, (note_add_update_reload sampleNotesPage ["x"] "line1\nline2 \"q\"" rfl).2.1⟩

/-- C5, witness: two stored records, the first with a custom `id` and no
end, the second with an end. -/
theorem initCalendar_hands_title_start_end_witness :
    readList sampleEventStorage "events" = .ok (.arr (sampleEventRecords.map JVal.obj)) ∧
    ∃ (c : Calendar) (out : List (List (String × JVal))),
      initCalendar sampleWidget sampleEventStorage = .ok c ∧
      c.initialEvents = out.map JVal.obj ∧ out.length = 2 := by
  obtain ⟨c, out, h1, h2, _, h4, _⟩ :=
    initCalendar_hands_title_start_end sampleWidget sampleEventStorage sampleEventRecords rfl
  exact ⟨rfl, c, out, h1, h2, h4⟩

end Dashboard
